import Mathlib

/-!
Shallow embedding of the numerical core of the `qha` package (quasi-harmonic
approximation pipeline), together with theorems settling the frozen claims
about it.  Machine floating-point arithmetic is idealised as real arithmetic;
numpy arrays of statically known rank are embedded as `Fin`-indexed functions,
raised Python exceptions as `Except` values, and raw Python lists as `List`.
-/

noncomputable section

namespace QHA

/-- Errors raised at component boundaries (Python `ValueError`/`RuntimeError`
with an invalid-input message). The embedding does not track message texts. -/
inductive QhaError
  | invalidInput
  deriving DecidableEq

/-- Boltzmann constant in the `ry` energy unit (the package default), from
`qha.statmech`: `pc['Boltzmann constant in eV/K'][0] / pc['Rydberg constant
times hc in eV'][0]`, with the CODATA values used by scipy. -/
def K : ℝ := 8.617333262e-5 / 13.605693122994

/-- Reduced Planck constant scale in the `ry` energy unit, from `qha.statmech`:
`100 / pc['electron volt-inverse meter relationship'][0] / pc['Rydberg constant
times hc in eV'][0]`. -/
def HBAR : ℝ := 100 / 806554.3937 / 13.605693122994

lemma K_pos : 0 < K := by norm_num [K]

/-- Embedding of `qha.statmech.ho_free_energy`: harmonic-oscillator free energy
of one mode; non-positive frequencies contribute nothing. -/
def ho_free_energy (temperature frequency : ℝ) : ℝ :=
  if frequency ≤ 0 then 0
  else 1 / 2 * (HBAR * frequency) +
    K * temperature * Real.log (1 - Real.exp (-(HBAR * frequency) / (K * temperature)))

/-- Body of `qha.single_configuration.free_energy` after its weight check: if
`static_only` holds the static energies are returned unchanged; otherwise the
vibrational sum over modes, reduced over q-points with the internally
normalised weights, is added to the static energies. -/
def free_energy_body {n m l : ℕ} (temperature : ℝ) (q_weights : Fin m → ℝ)
    (static_energies : Fin n → ℝ) (frequencies : Fin n → Fin m → Fin l → ℝ)
    (static_only : Bool) : Fin n → ℝ :=
  if static_only then static_energies
  else fun v => static_energies v +
    ∑ q, (∑ b, ho_free_energy temperature (frequencies v q b)) * (q_weights q / ∑ r, q_weights r)

open Classical in
/-- Embedding of `qha.single_configuration.free_energy`: the q-weights are
checked to be non-negative before anything else; a negative weight raises
`ValueError` (modelled as `Except.error`). -/
def free_energy {n m l : ℕ} (temperature : ℝ) (q_weights : Fin m → ℝ)
    (static_energies : Fin n → ℝ) (frequencies : Fin n → Fin m → Fin l → ℝ)
    (static_only : Bool) : Except QhaError (Fin n → ℝ) :=
  if ∀ q, 0 ≤ q_weights q then
    .ok (free_energy_body temperature q_weights static_energies frequencies static_only)
  else .error .invalidInput

/-- Embedding of `qha.grid_interpolation.calculate_eulerian_strain`. -/
def calculate_eulerian_strain (v0 v : ℝ) : ℝ :=
  1 / 2 * ((v0 / v) ^ ((2 : ℝ) / 3) - 1)

/-- Embedding of `qha.grid_interpolation.from_eulerian_strain`. -/
def from_eulerian_strain (v0 f : ℝ) : ℝ :=
  v0 * (2 * f + 1) ^ (-(3 : ℝ) / 2)

/-- C5: composing the strain transform with its inverse is the identity on
positive volumes: `from_eulerian_strain v0 (calculate_eulerian_strain v0 v) = v`
for every reference volume `v0 > 0` and every volume `v > 0`. -/
theorem strain_roundtrip (v0 v : ℝ) (hv0 : 0 < v0) (hv : 0 < v) :
    from_eulerian_strain v0 (calculate_eulerian_strain v0 v) = v := by
  have hq : 0 < v0 / v := div_pos hv0 hv
  have hpow : (0 : ℝ) < (v0 / v) ^ ((2 : ℝ) / 3) := Real.rpow_pos_of_pos hq _
  unfold from_eulerian_strain calculate_eulerian_strain
  have h1 : 2 * (1 / 2 * ((v0 / v) ^ ((2 : ℝ) / 3) - 1)) + 1 = (v0 / v) ^ ((2 : ℝ) / 3) := by
    ring
  rw [h1, ← Real.rpow_mul (le_of_lt hq)]
  rw [show (2 : ℝ) / 3 * (-3 / 2) = -1 by norm_num, Real.rpow_neg_one]
  field_simp

/-- Witness for C5 at `v0 = 2`, `v = 3`. -/
theorem strain_roundtrip_witness :
    (0 : ℝ) < 2 ∧ (0 : ℝ) < 3 ∧
      from_eulerian_strain 2 (calculate_eulerian_strain 2 3) = 3 :=
  ⟨by norm_num, by norm_num, strain_roundtrip 2 3 (by norm_num) (by norm_num)⟩

/-- Other direction of the round trip, used when building concrete volume
vectors with prescribed strains: for `v0 > 0` and strain `s > -1/2`,
`calculate_eulerian_strain v0 (from_eulerian_strain v0 s) = s`. -/
lemma calculate_of_from_eulerian_strain (v0 s : ℝ) (hv0 : 0 < v0)
    (hs : -(1 / 2 : ℝ) < s) :
    calculate_eulerian_strain v0 (from_eulerian_strain v0 s) = s := by
  have hb : (0 : ℝ) < 2 * s + 1 := by linarith
  have hp : (0 : ℝ) < (2 * s + 1) ^ (-(3 : ℝ) / 2) := Real.rpow_pos_of_pos hb _
  unfold calculate_eulerian_strain from_eulerian_strain
  have h1 : v0 * (2 * s + 1) ^ (-(3 : ℝ) / 2) ≠ 0 := by positivity
  have h2 : v0 / (v0 * (2 * s + 1) ^ (-(3 : ℝ) / 2)) =
      ((2 * s + 1) ^ (-(3 : ℝ) / 2))⁻¹ := by
    field_simp
  rw [h2, ← Real.rpow_neg_one ((2 * s + 1) ^ (-(3 : ℝ) / 2)),
    ← Real.rpow_mul (le_of_lt hb), ← Real.rpow_mul (le_of_lt hb)]
  rw [show -(3 : ℝ) / 2 * -1 * (2 / 3) = 1 by norm_num, Real.rpow_one]
  ring

/-- C4: with `static_only = true` and non-negative q-weights, `free_energy`
returns exactly the static-energy vector, for every frequency array. -/
theorem free_energy_static_only {n m l : ℕ} (temperature : ℝ) (q_weights : Fin m → ℝ)
    (static_energies : Fin n → ℝ) (frequencies : Fin n → Fin m → Fin l → ℝ)
    (hw : ∀ q, 0 ≤ q_weights q) :
    free_energy temperature q_weights static_energies frequencies true =
      .ok static_energies := by
  unfold free_energy free_energy_body
  rw [if_pos hw, if_pos rfl]

/-- Witness for C4 at a concrete temperature, weight vector, static-energy
vector and frequency array. -/
theorem free_energy_static_only_witness :
    (∀ q : Fin 2, 0 ≤ (![1, 3] : Fin 2 → ℝ) q) ∧
      free_energy 300 (![1, 3] : Fin 2 → ℝ) (![-10, -9] : Fin 2 → ℝ)
        (fun _ _ _ => (5 : ℝ) : Fin 2 → Fin 2 → Fin 3 → ℝ) true =
        .ok (![-10, -9] : Fin 2 → ℝ) := by
  have hw : ∀ q : Fin 2, 0 ≤ (![1, 3] : Fin 2 → ℝ) q := by
    intro q
    fin_cases q <;> norm_num
  exact ⟨hw, free_energy_static_only 300 _ _ _ hw⟩

/-- C6: `free_energy` fails with the invalid-input error exactly when some
q-weight is negative, for every value of `static_only` — in particular the
check precedes the static-only shortcut, so no static result is returned when
a weight is negative. -/
theorem free_energy_error_iff {n m l : ℕ} (temperature : ℝ) (q_weights : Fin m → ℝ)
    (static_energies : Fin n → ℝ) (frequencies : Fin n → Fin m → Fin l → ℝ)
    (static_only : Bool) :
    (∃ e, free_energy temperature q_weights static_energies frequencies static_only =
      .error e) ↔ ∃ q, q_weights q < 0 := by
  unfold free_energy
  by_cases hw : ∀ q, 0 ≤ q_weights q
  · rw [if_pos hw]
    simp only [reduceCtorEq, exists_false, false_iff, not_exists, not_lt]
    exact hw
  · rw [if_neg hw]
    push_neg at hw
    obtain ⟨q, hq⟩ := hw
    exact ⟨fun _ => ⟨q, hq⟩, fun _ => ⟨.invalidInput, rfl⟩⟩

/-- Embedding of `numpy.diff`: successive differences of a list. -/
def np_diff (l : List ℝ) : List ℝ :=
  (l.zip l.tail).map fun p => p.2 - p.1

/-- Embedding of `qha.tools.is_monotonic_decreasing`: all successive
differences are `≤ 0`. -/
def is_monotonic_decreasing (l : List ℝ) : Bool :=
  (np_diff l).all fun d => decide (d ≤ 0)

/-- The volume-order gate of `qha.calculator.Calculator.read_input`: volumes
failing `is_monotonic_decreasing` are rejected with a `RuntimeError`. -/
def read_input_volume_check (volumes : List ℝ) : Except QhaError Unit :=
  if is_monotonic_decreasing volumes then .ok () else .error .invalidInput

/-- Strict decrease of consecutive entries, the ordering the specification
asserts the volume check enforces. -/
def strictly_decreasing (l : List ℝ) : Prop :=
  l.Chain' (· > ·)

lemma is_monotonic_decreasing_iff (l : List ℝ) :
    is_monotonic_decreasing l = true ↔ l.Chain' (· ≥ ·) := by
  induction l with
  | nil => simp [is_monotonic_decreasing, np_diff]
  | cons a l ih =>
    cases l with
    | nil => simp [is_monotonic_decreasing, np_diff]
    | cons b l' =>
      have hd : np_diff (a :: b :: l') = (b - a) :: np_diff (b :: l') := rfl
      rw [List.chain'_cons, ← ih]
      simp only [is_monotonic_decreasing, hd, List.all_cons, Bool.and_eq_true,
        decide_eq_true_eq, ge_iff_le, sub_nonpos]

/-- C9 counterexample: the vector `[2, 2, 1]` is not strictly decreasing (it
has two equal consecutive volumes), yet `is_monotonic_decreasing` accepts it
and the `read_input` gate lets it pass, contradicting the claim that every
such vector fails the check. -/
theorem monotonic_check_accepts_equal_volumes :
    is_monotonic_decreasing [2, 2, 1] = true ∧
      ¬ strictly_decreasing [2, 2, 1] ∧
      read_input_volume_check [2, 2, 1] = .ok () := by
  have h : is_monotonic_decreasing [2, 2, 1] = true := by
    rw [is_monotonic_decreasing_iff]
    simp only [List.chain'_cons, List.chain'_singleton, ge_iff_le, and_true]
    norm_num
  refine ⟨h, ?_, ?_⟩
  · intro hs
    have := (List.chain'_cons.mp hs).1
    norm_num at this
  · rw [read_input_volume_check, if_pos h]

/-- C9 amended: the check enforces weak (non-strict) monotonic decrease: a
volume vector passes `is_monotonic_decreasing` — and hence the `read_input`
gate — if and only if its consecutive entries are non-increasing; in
particular every strictly decreasing vector passes, and every vector with an
increasing consecutive pair is rejected. -/
theorem monotonic_check_iff_weakly_decreasing (l : List ℝ) :
    (is_monotonic_decreasing l = true ↔ l.Chain' (· ≥ ·)) ∧
      (read_input_volume_check l = .ok () ↔ l.Chain' (· ≥ ·)) ∧
      (strictly_decreasing l → read_input_volume_check l = .ok ()) := by
  have h := is_monotonic_decreasing_iff l
  have hgate : read_input_volume_check l = .ok () ↔ l.Chain' (· ≥ ·) := by
    rw [← h]
    unfold read_input_volume_check
    by_cases hc : is_monotonic_decreasing l = true
    · rw [if_pos hc]
      exact ⟨fun _ => hc, fun _ => rfl⟩
    · rw [if_neg hc]
      exact ⟨fun hh => absurd hh (by simp), fun hh => absurd hh hc⟩
  refine ⟨h, hgate, fun hs => hgate.mpr ?_⟩
  exact List.Chain'.imp (fun a b hab => le_of_lt hab) hs

/-- Embedding of `qha.tools.arange`: `num` points starting at `start` with
spacing `step`. -/
def arange (start : ℝ) (num : ℕ) (step : ℝ) : List ℝ :=
  (List.range num).map fun i : ℕ => start + step * (i : ℝ)

/-- Embedding of `qha.calculator.Calculator.temperature_array`: rejects a
negative minimum temperature, otherwise produces `NT + 4` evenly spaced
points (4 more than the nominal count). -/
def temperature_array (t_min : ℝ) (nt : ℕ) (dt : ℝ) : Except QhaError (List ℝ) :=
  if t_min < 0 then .error .invalidInput else .ok (arange t_min (nt + 4) dt)

/-- Temperatures indexing the rows written by `qha.basic_io.out.save_x_tp`:
the data frame is truncated by `iloc[:-4]` (the sample filter then selects
pressure columns, not temperature rows). -/
def save_x_tp_temps (t : List ℝ) : List ℝ :=
  t.take (t.length - 4)

/-- Temperatures indexing the columns written by `qha.basic_io.out.save_x_pt`:
the transposed frame keeps columns `t[:-4]` and then selects those in the
sample list. -/
def save_x_pt_temps (t t_sample : List ℝ) : List ℝ :=
  (t.take (t.length - 4)).filter fun x => decide (x ∈ t_sample)

/-- Temperatures indexing the rows written by `qha.basic_io.out.save_x_tv`:
rows `t[:-4]`, then those whose temperature is in `t_sample[:-4]`. -/
def save_x_tv_temps (t t_sample : List ℝ) : List ℝ :=
  (t.take (t.length - 4)).filter fun x => decide (x ∈ t_sample.take (t_sample.length - 4))

/-- Temperatures indexing the columns written by `qha.basic_io.out.save_x_vt`:
every temperature of the full axis that appears in `t_sample` — this writer
performs no `[:-4]` truncation. -/
def save_x_vt_temps (t t_sample : List ℝ) : List ℝ :=
  t.filter fun x => decide (x ∈ t_sample)

/-- C8 counterexample: with `T_MIN = 0`, `NT = 1`, `DT = 1` the temperature
axis is `[0, 1, 2, 3, 4]`, and when every temperature is sampled the writer
`save_x_vt` writes all five temperature rows instead of dropping the last 4
(which would leave only `[0]`), contradicting the claim that every output
writer drops exactly the last 4 temperature rows. -/
theorem save_x_vt_keeps_trailing_rows :
    temperature_array 0 1 1 = .ok [0, 1, 2, 3, 4] ∧
      save_x_vt_temps [0, 1, 2, 3, 4] [0, 1, 2, 3, 4] = [0, 1, 2, 3, 4] ∧
      ([0, 1, 2, 3, 4] : List ℝ) ≠
        ([0, 1, 2, 3, 4] : List ℝ).take (([0, 1, 2, 3, 4] : List ℝ).length - 4) := by
  refine ⟨?_, ?_, ?_⟩
  · rw [temperature_array, if_neg (by norm_num)]
    norm_num [arange, List.range_succ]
  · rw [save_x_vt_temps, List.filter_eq_self]
    intro a ha
    exact decide_eq_true ha
  · intro h
    have := congrArg List.length h
    simp at this

lemma arange_take (start : ℝ) (nt : ℕ) (dt : ℝ) :
    (arange start (nt + 4) dt).take nt = arange start nt dt := by
  unfold arange
  rw [← List.map_take, List.take_range]
  have h : min nt (nt + 4) = nt := by omega
  rw [h]

/-- C8 amended: the temperature axis is exactly `NT + 4` points with element
`i` equal to `T_MIN + i·DT` (ascending when `DT > 0`), and the writers
`save_x_tp`, `save_x_pt` and `save_x_tv` drop exactly the last 4 temperature
rows before writing (then, where applicable, keep only sampled temperatures);
the remaining writer `save_x_vt` instead writes sampled temperatures from the
full axis (see the counterexample). -/
theorem temperature_axis_and_writers (t_min dt : ℝ) (nt : ℕ) (t_sample : List ℝ)
    (h0 : 0 ≤ t_min) (hdt : 0 < dt) :
    ∃ taxis, temperature_array t_min nt dt = .ok taxis ∧
      taxis.length = nt + 4 ∧
      (∀ i : ℕ, i < nt + 4 → taxis.getD i 0 = t_min + dt * i) ∧
      taxis.Chain' (· < ·) ∧
      save_x_tp_temps taxis = arange t_min nt dt ∧
      save_x_pt_temps taxis t_sample =
        (arange t_min nt dt).filter (fun x => decide (x ∈ t_sample)) ∧
      save_x_tv_temps taxis t_sample =
        (arange t_min nt dt).filter
          (fun x => decide (x ∈ t_sample.take (t_sample.length - 4))) := by
  refine ⟨arange t_min (nt + 4) dt, ?_, ?_, ?_, ?_, ?_, ?_, ?_⟩
  · rw [temperature_array, if_neg (not_lt.mpr h0)]
  · simp [arange]
  · intro i hi
    unfold arange
    rw [List.getD_eq_getElem?_getD, List.getElem?_map, List.getElem?_range hi]
    rfl
  · unfold arange
    rw [List.chain'_map]
    have : nt + 4 = (nt + 3) + 1 := rfl
    rw [this, List.chain'_range_succ]
    intro m _
    have : (m : ℝ) < (m + 1 : ℕ) := by push_cast; linarith
    nlinarith
  · rw [save_x_tp_temps]
    have hl : (arange t_min (nt + 4) dt).length = nt + 4 := by simp [arange]
    rw [hl]
    have : nt + 4 - 4 = nt := by omega
    rw [this, arange_take]
  · rw [save_x_pt_temps]
    have hl : (arange t_min (nt + 4) dt).length = nt + 4 := by simp [arange]
    rw [hl]
    have : nt + 4 - 4 = nt := by omega
    rw [this, arange_take]
  · rw [save_x_tv_temps]
    have hl : (arange t_min (nt + 4) dt).length = nt + 4 := by simp [arange]
    rw [hl]
    have : nt + 4 - 4 = nt := by omega
    rw [this, arange_take]

/-- Witness for the amended C8 at `T_MIN = 0`, `NT = 2`, `DT = 1`, with an
empty sample list. -/
theorem temperature_axis_and_writers_witness :
    (0 : ℝ) ≤ 0 ∧ (0 : ℝ) < 1 ∧
      ∃ taxis, temperature_array 0 2 1 = .ok taxis ∧
        taxis.length = 2 + 4 ∧
        (∀ i : ℕ, i < 2 + 4 → taxis.getD i 0 = 0 + 1 * i) ∧
        taxis.Chain' (· < ·) ∧
        save_x_tp_temps taxis = arange 0 2 1 ∧
        save_x_pt_temps taxis [] =
          (arange 0 2 1).filter (fun x => decide (x ∈ ([] : List ℝ))) ∧
        save_x_tv_temps taxis [] =
          (arange 0 2 1).filter
            (fun x => decide (x ∈ ([] : List ℝ).take (([] : List ℝ).length - 4))) :=
  ⟨le_refl 0, by norm_num, temperature_axis_and_writers 0 1 2 [] (le_refl 0) (by norm_num)⟩

/-- Truncation toward zero, the behaviour of Python's `int()` on a float. -/
def pyint (x : ℝ) : ℤ :=
  if 0 ≤ x then ⌊x⌋ else -⌊-x⌋

/-- Embedding of `qha.calculator.Calculator.desired_pressure_status`: if the
minimum over temperatures of the pressure in the last dense-grid column is
below the maximum desired pressure, the run aborts (`Except.error`), reporting
the suggested maximum pressure-grid size
`int((p_tv_gpa[:, -1].min() - desired.min()) / DELTA_P)`; no result value is
produced on that path. -/
def desired_pressure_status {t v k : ℕ} (p_tv_gpa : Fin (t + 1) → Fin (v + 1) → ℝ)
    (desired_pressures_gpa : Fin (k + 1) → ℝ) (delta_p : ℝ) : Except ℤ Unit :=
  if (Finset.univ.inf' Finset.univ_nonempty fun i => p_tv_gpa i (Fin.last v)) <
      Finset.univ.sup' Finset.univ_nonempty desired_pressures_gpa then
    .error (pyint (((Finset.univ.inf' Finset.univ_nonempty fun i => p_tv_gpa i (Fin.last v)) -
      Finset.univ.inf' Finset.univ_nonempty desired_pressures_gpa) / delta_p))
  else .ok ()

/-- C7: the desired-pressure check aborts exactly when some temperature's
pressure at the last dense-grid column is below some desired pressure (i.e.
the minimum reachable pressure is below the maximum desired pressure), and on
that path the reported suggested maximum grid size is the integer part of
(minimum reachable pressure − minimum desired pressure) / DELTA_P; no result
is produced on the error path (the success value is the only alternative). -/
theorem desired_pressure_status_spec {t v k : ℕ}
    (p_tv_gpa : Fin (t + 1) → Fin (v + 1) → ℝ)
    (desired_pressures_gpa : Fin (k + 1) → ℝ) (delta_p : ℝ) :
    ((∃ z, desired_pressure_status p_tv_gpa desired_pressures_gpa delta_p = .error z) ↔
      ∃ i j, p_tv_gpa i (Fin.last v) < desired_pressures_gpa j) ∧
    (∀ z, desired_pressure_status p_tv_gpa desired_pressures_gpa delta_p = .error z →
      ∃ i0 j0, (∀ i, p_tv_gpa i0 (Fin.last v) ≤ p_tv_gpa i (Fin.last v)) ∧
        (∀ j, desired_pressures_gpa j0 ≤ desired_pressures_gpa j) ∧
        z = pyint ((p_tv_gpa i0 (Fin.last v) - desired_pressures_gpa j0) / delta_p)) := by
  obtain ⟨i0, -, hi0⟩ := Finset.exists_mem_eq_inf' (Finset.univ_nonempty)
    (fun i => p_tv_gpa i (Fin.last v))
  obtain ⟨j0, -, hj0⟩ := Finset.exists_mem_eq_inf' (Finset.univ_nonempty)
    desired_pressures_gpa
  obtain ⟨j1, -, hj1⟩ := Finset.exists_mem_eq_sup' (Finset.univ_nonempty)
    desired_pressures_gpa
  constructor
  · unfold desired_pressure_status
    by_cases hlt : (Finset.univ.inf' Finset.univ_nonempty fun i => p_tv_gpa i (Fin.last v)) <
        Finset.univ.sup' Finset.univ_nonempty desired_pressures_gpa
    · rw [if_pos hlt]
      refine ⟨fun _ => ⟨i0, j1, ?_⟩, fun _ => ⟨_, rfl⟩⟩
      rw [← hi0, ← hj1]
      exact hlt
    · rw [if_neg hlt]
      constructor
      · rintro ⟨z, hz⟩
        exact absurd hz (by simp)
      · rintro ⟨i, j, hij⟩
        exfalso
        apply hlt
        calc (Finset.univ.inf' Finset.univ_nonempty fun i => p_tv_gpa i (Fin.last v)) ≤
            p_tv_gpa i (Fin.last v) := Finset.inf'_le _ (Finset.mem_univ i)
          _ < desired_pressures_gpa j := hij
          _ ≤ Finset.univ.sup' Finset.univ_nonempty desired_pressures_gpa :=
            Finset.le_sup' _ (Finset.mem_univ j)
  · intro z hz
    unfold desired_pressure_status at hz
    by_cases hlt : (Finset.univ.inf' Finset.univ_nonempty fun i => p_tv_gpa i (Fin.last v)) <
        Finset.univ.sup' Finset.univ_nonempty desired_pressures_gpa
    · rw [if_pos hlt] at hz
      refine ⟨i0, j0, ?_, ?_, ?_⟩
      · intro i
        rw [← hi0]
        exact Finset.inf'_le _ (Finset.mem_univ i)
      · intro j
        rw [← hj0]
        exact Finset.inf'_le _ (Finset.mem_univ j)
      · have := Except.error.inj hz
        rw [← this, ← hi0, ← hj0]
    · rw [if_neg hlt] at hz
      exact absurd hz (by simp)

/-- Embedding of `numpy.vander(xs, cols, increasing=True)`: the design matrix
whose columns are increasing powers of the sample points. -/
def vander {m : ℕ} (xs : Fin m → ℝ) (cols : ℕ) : Matrix (Fin m) (Fin cols) ℝ :=
  Matrix.of fun i j => xs i ^ (j : ℕ)

/-- Embedding of `qha.fitting.polynomial_least_square_fitting`: ordinary least
squares on a Vandermonde design matrix with `order + 1` columns, solved by
`a = (XᵀX)⁻¹ Xᵀ y`, then evaluated at the new sample points. -/
def polynomial_least_square_fitting {m k : ℕ} (xs ys : Fin m → ℝ) (new_xs : Fin k → ℝ)
    (order : ℕ) : (Fin (order + 1) → ℝ) × (Fin k → ℝ) :=
  let xx := vander xs (order + 1)
  let a := (xx.transpose * xx)⁻¹.mulVec (xx.transpose.mulVec ys)
  (a, (vander new_xs (order + 1)).mulVec a)

lemma vander_square_eq_vandermonde {n : ℕ} (xs : Fin n → ℝ) :
    vander xs n = Matrix.vandermonde xs := rfl

lemma vander_square_isUnit_det {n : ℕ} (xs : Fin n → ℝ) (h : Function.Injective xs) :
    IsUnit (vander xs n).det := by
  rw [vander_square_eq_vandermonde, Matrix.det_vandermonde, isUnit_iff_ne_zero]
  rw [Finset.prod_ne_zero_iff]
  intro i _
  rw [Finset.prod_ne_zero_iff]
  intro j hj
  have hij : i < j := Finset.mem_Ioi.mp hj
  exact sub_ne_zero_of_ne fun hc => absurd (h hc) (Fin.ne_of_gt hij)

/-- When the number of sample points equals the number of coefficients and the
sample points are distinct, the least-squares solution interpolates: evaluated
back at the sample points it reproduces the sample values exactly. -/
lemma pls_interpolation {o : ℕ} (xs ys : Fin (o + 1) → ℝ) (h : Function.Injective xs) :
    (polynomial_least_square_fitting xs ys xs o).2 = ys := by
  have hdet : IsUnit (vander xs (o + 1)).det := vander_square_isUnit_det xs h
  have hdetT : IsUnit (vander xs (o + 1)).transpose.det := by
    rwa [Matrix.det_transpose]
  show (vander xs (o + 1)).mulVec
      (((vander xs (o + 1)).transpose * vander xs (o + 1))⁻¹.mulVec
        ((vander xs (o + 1)).transpose.mulVec ys)) = ys
  rw [Matrix.mul_inv_rev, Matrix.mulVec_mulVec, Matrix.mulVec_mulVec]
  have hone : vander xs (o + 1) *
      ((vander xs (o + 1))⁻¹ * ((vander xs (o + 1)).transpose)⁻¹) *
        (vander xs (o + 1)).transpose = 1 := by
    rw [← Matrix.mul_assoc (vander xs (o + 1)), Matrix.mul_nonsing_inv _ hdet,
      Matrix.one_mul, Matrix.nonsing_inv_mul _ hdetT]
  rw [hone, Matrix.one_mulVec]

/-- C2 amended: for every order `N` in `{3,4,5}` and every set of exactly
`N + 1` distinct strain points with corresponding values,
`polynomial_least_square_fitting` of order `N`, evaluated back at the input
strain points, reproduces the input values exactly.  (With more than `N + 1`
points the least-squares fit generally does not interpolate — see the
counterexample.) -/
theorem polynomial_fit_interpolates (order : ℕ)
    (horder : order = 3 ∨ order = 4 ∨ order = 5) (xs ys : Fin (order + 1) → ℝ)
    (hxs : Function.Injective xs) :
    (polynomial_least_square_fitting xs ys xs order).2 = ys :=
  pls_interpolation xs ys hxs

/-- Witness for the amended C2 at order 3 with strain points `0, 1, 2, 3`. -/
theorem polynomial_fit_interpolates_witness :
    ((3 : ℕ) = 3 ∨ (3 : ℕ) = 4 ∨ (3 : ℕ) = 5) ∧
      Function.Injective (![0, 1, 2, 3] : Fin 4 → ℝ) ∧
      (polynomial_least_square_fitting (![0, 1, 2, 3] : Fin 4 → ℝ)
        ![5, 6, 7, 8] ![0, 1, 2, 3] 3).2 = ![5, 6, 7, 8] := by
  have hinj : Function.Injective (![0, 1, 2, 3] : Fin 4 → ℝ) := by
    intro a b hab
    fin_cases a <;> fin_cases b <;> first
      | rfl
      | (exfalso; norm_num at hab)
  exact ⟨Or.inl rfl, hinj, polynomial_fit_interpolates 3 (Or.inl rfl) _ _ hinj⟩

set_option maxRecDepth 4000 in
/-- C2 counterexample: with 5 distinct strain points `-2, -1, 0, 1, 2` (more
than `order + 1 = 4`) and values `0, 0, 1, 0, 0`, the order-3 least-squares
fit evaluated back at the input strains does not reproduce the input values:
at the third point it returns `17/35`, not `1`. -/
theorem polynomial_fit_five_points_not_exact :
    (polynomial_least_square_fitting (![-2, -1, 0, 1, 2] : Fin 5 → ℝ)
      ![0, 0, 1, 0, 0] ![-2, -1, 0, 1, 2] 3).2 ≠ ![0, 0, 1, 0, 0] := by
  have hM : (vander (![-2, -1, 0, 1, 2] : Fin 5 → ℝ) 4).transpose *
      vander (![-2, -1, 0, 1, 2] : Fin 5 → ℝ) 4 =
      !![5, 0, 10, 0; 0, 10, 0, 34; 10, 0, 34, 0; 0, 34, 0, 130] := by
    ext i j
    fin_cases i <;> fin_cases j <;>
      norm_num [vander, Matrix.mul_apply, Fin.sum_univ_five, Matrix.transpose_apply]
  have hMinv : (!![5, 0, 10, 0; 0, 10, 0, 34; 10, 0, 34, 0; 0, 34, 0, 130] :
      Matrix (Fin 4) (Fin 4) ℝ)⁻¹ =
      !![17/35, 0, -1/7, 0; 0, 65/72, 0, -17/72; -1/7, 0, 1/14, 0;
        0, -17/72, 0, 5/72] := by
    apply Matrix.inv_eq_right_inv
    ext i j
    fin_cases i <;> fin_cases j <;>
      norm_num [Matrix.mul_apply, Fin.sum_univ_four, Matrix.one_apply, Fin.ext_iff]
  have hval : (polynomial_least_square_fitting (![-2, -1, 0, 1, 2] : Fin 5 → ℝ)
      ![0, 0, 1, 0, 0] ![-2, -1, 0, 1, 2] 3).2 (2 : Fin 5) = 17 / 35 := by
    show ((vander (![-2, -1, 0, 1, 2] : Fin 5 → ℝ) 4).mulVec
      (((vander (![-2, -1, 0, 1, 2] : Fin 5 → ℝ) 4).transpose *
          vander (![-2, -1, 0, 1, 2] : Fin 5 → ℝ) 4)⁻¹.mulVec
        ((vander (![-2, -1, 0, 1, 2] : Fin 5 → ℝ) 4).transpose.mulVec
          ![0, 0, 1, 0, 0]))) (2 : Fin 5) = 17 / 35
    rw [hM, hMinv]
    norm_num [Matrix.mulVec, Matrix.dotProduct, vander, Fin.sum_univ_four,
      Fin.sum_univ_five, Matrix.transpose_apply,
      show ((2 : Fin 4) : ℕ) = 2 from rfl, show ((3 : Fin 4) : ℕ) = 3 from rfl]
  intro h
  have h2 := congrFun h (2 : Fin 5)
  rw [hval] at h2
  norm_num at h2

/-- Embedding of `qha.tools.calibrate_energy_on_reference`: each
configuration's energy curve is refit in strain space (reference volume: the
configuration's own first volume) and evaluated at the strains of the first
configuration's volumes. -/
def calibrate_energy_on_reference {N n : ℕ} (volumes : Fin (N + 1) → Fin (n + 1) → ℝ)
    (energies : Fin (N + 1) → Fin (n + 1) → ℝ) (order : ℕ) :
    Fin (N + 1) → Fin (n + 1) → ℝ :=
  fun i => (polynomial_least_square_fitting
    (fun j => calculate_eulerian_strain (volumes i 0) (volumes i j))
    (energies i)
    (fun j => calculate_eulerian_strain (volumes i 0) (volumes 0 j)) order).2

/-- Mathematical value of `scipy.special.logsumexp(a, b=b)` over exact real
arithmetic. -/
def logsumexp {N : ℕ} (a b : Fin N → ℝ) : ℝ :=
  Real.log (∑ j, b j * Real.exp (a j))

/-- The temperature clamp of
`qha.multi_configurations.different_phonon_dos.PartitionFunction.__init__`:
temperatures below `1e-1` are replaced by `1`. -/
def clamped_temperature (temperature : ℝ) : ℝ :=
  if temperature < 1e-1 then 1 else temperature

lemma clamped_temperature_pos (temperature : ℝ) : 0 < clamped_temperature temperature := by
  unfold clamped_temperature
  split
  · norm_num
  · linarith [not_lt.mp (by assumption : ¬ temperature < 1e-1), show (0:ℝ) < 1e-1 by norm_num]

/-- The per-configuration free energies of `PartitionFunction`
(`unaligned_free_energies_for_each_configuration`), evaluated at the clamped
temperature; the weight check of `free_energy` is performed by
`pf_get_free_energies` before this value is used. -/
def pf_unaligned_free_energies {N n m l : ℕ} (temperature : ℝ)
    (q_weights : Fin (N + 1) → Fin m → ℝ)
    (static_energies : Fin (N + 1) → Fin (n + 1) → ℝ)
    (frequencies : Fin (N + 1) → Fin (n + 1) → Fin m → Fin l → ℝ)
    (static_only : Bool) : Fin (N + 1) → Fin (n + 1) → ℝ :=
  fun j => free_energy_body (clamped_temperature temperature) (q_weights j)
    (static_energies j) (frequencies j) static_only

/-- The calibrated free energies of `PartitionFunction`
(`aligned_free_energies_for_each_configuration`). -/
def pf_aligned_free_energies {N n m l : ℕ} (temperature : ℝ)
    (q_weights : Fin (N + 1) → Fin m → ℝ)
    (static_energies : Fin (N + 1) → Fin (n + 1) → ℝ)
    (volumes : Fin (N + 1) → Fin (n + 1) → ℝ)
    (frequencies : Fin (N + 1) → Fin (n + 1) → Fin m → Fin l → ℝ)
    (static_only : Bool) (order : ℕ) : Fin (N + 1) → Fin (n + 1) → ℝ :=
  calibrate_energy_on_reference volumes
    (pf_unaligned_free_energies temperature q_weights static_energies frequencies static_only)
    order

/-- The summed partition function of `PartitionFunction`
(`partition_functions_for_all_configurations`): a log-sum-exp reduction
weighted by the degeneracies, exponentiated back.  The arbitrary-precision
`mpmath` arithmetic of the source is idealised as exact real arithmetic, so
the `precision` parameter has no counterpart here. -/
def pf_partition_all_configs {N n m l : ℕ} (temperature : ℝ)
    (degeneracies : Fin (N + 1) → ℝ) (q_weights : Fin (N + 1) → Fin m → ℝ)
    (static_energies : Fin (N + 1) → Fin (n + 1) → ℝ)
    (volumes : Fin (N + 1) → Fin (n + 1) → ℝ)
    (frequencies : Fin (N + 1) → Fin (n + 1) → Fin m → Fin l → ℝ)
    (static_only : Bool) (order : ℕ) : Fin (n + 1) → ℝ :=
  fun v => Real.exp (logsumexp
    (fun j => -(pf_aligned_free_energies temperature q_weights static_energies volumes
      frequencies static_only order j v) / (K * clamped_temperature temperature))
    degeneracies)

open Classical in
/-- Embedding of `PartitionFunction.__init__` checks together with
`PartitionFunction.get_free_energies`: negative degeneracies or q-weights are
rejected up front; otherwise the combined free energy per volume is
`-k_B T ln Z` with `Z` the degeneracy-weighted partition-function sum.  The
array-rank checks of the source are enforced by the index types of the
embedding. -/
def pf_get_free_energies {N n m l : ℕ} (temperature : ℝ)
    (degeneracies : Fin (N + 1) → ℝ) (q_weights : Fin (N + 1) → Fin m → ℝ)
    (static_energies : Fin (N + 1) → Fin (n + 1) → ℝ)
    (volumes : Fin (N + 1) → Fin (n + 1) → ℝ)
    (frequencies : Fin (N + 1) → Fin (n + 1) → Fin m → Fin l → ℝ)
    (static_only : Bool) (order : ℕ) : Except QhaError (Fin (n + 1) → ℝ) :=
  if ∀ j, 0 ≤ degeneracies j then
    if ∀ j q, 0 ≤ q_weights j q then
      .ok (fun v => -(K * clamped_temperature temperature) *
        Real.log (pf_partition_all_configs temperature degeneracies q_weights
          static_energies volumes frequencies static_only order v))
    else .error .invalidInput
  else .error .invalidInput

lemma pf_get_free_energies_eq_ok {N n m l : ℕ} (temperature : ℝ)
    (degeneracies : Fin (N + 1) → ℝ) (q_weights : Fin (N + 1) → Fin m → ℝ)
    (static_energies : Fin (N + 1) → Fin (n + 1) → ℝ)
    (volumes : Fin (N + 1) → Fin (n + 1) → ℝ)
    (frequencies : Fin (N + 1) → Fin (n + 1) → Fin m → Fin l → ℝ)
    (static_only : Bool) (order : ℕ)
    (hdeg : ∀ j, 0 ≤ degeneracies j) (hw : ∀ j q, 0 ≤ q_weights j q) :
    pf_get_free_energies temperature degeneracies q_weights static_energies volumes
      frequencies static_only order =
    .ok (fun v => -(K * clamped_temperature temperature) *
      Real.log (pf_partition_all_configs temperature degeneracies q_weights
        static_energies volumes frequencies static_only order v)) := by
  unfold pf_get_free_energies
  rw [if_pos hdeg, if_pos hw]

lemma calculate_eulerian_strain_lt (v0 x y : ℝ) (hv0 : 0 < v0) (hx : 0 < x)
    (hxy : x < y) :
    calculate_eulerian_strain v0 y < calculate_eulerian_strain v0 x := by
  unfold calculate_eulerian_strain
  have h1 : v0 / y < v0 / x := div_lt_div_of_pos_left hv0 hx hxy
  have h2 : (v0 / y) ^ ((2 : ℝ) / 3) < (v0 / x) ^ ((2 : ℝ) / 3) :=
    Real.rpow_lt_rpow (le_of_lt (div_pos hv0 (lt_trans hx hxy))) h1 (by norm_num)
  linarith

lemma strain_injective_of_pos {n : ℕ} (v : Fin (n + 1) → ℝ)
    (hpos : ∀ k, 0 < v k) (hinj : Function.Injective v) :
    Function.Injective fun k => calculate_eulerian_strain (v 0) (v k) := by
  intro a b hab
  by_contra hne
  have hvne : v a ≠ v b := fun hc => hne (hinj hc)
  rcases lt_or_gt_of_ne hvne with hlt | hgt
  · exact absurd hab
      (ne_of_gt (calculate_eulerian_strain_lt (v 0) (v a) (v b) (hpos 0) (hpos a) hlt))
  · exact absurd hab
      (ne_of_lt (calculate_eulerian_strain_lt (v 0) (v b) (v a) (hpos 0) (hpos b) hgt))

/-- When every configuration has the same volume vector (with distinct
strains) and the same energy row, and there are exactly `order + 1` volumes,
the calibration step is the identity: the fit interpolates. -/
lemma calibrate_identical_rows {N order : ℕ} (v : Fin (order + 1) → ℝ)
    (F : Fin (order + 1) → ℝ)
    (hinj : Function.Injective fun k => calculate_eulerian_strain (v 0) (v k)) :
    calibrate_energy_on_reference (fun _ : Fin (N + 1) => v) (fun _ => F) order =
      fun _ => F := by
  funext i
  exact pls_interpolation _ F hinj

/-- With a unit total degeneracy weight and all configurations contributing
the same free energy, the log-sum-exp combination collapses to that free
energy. -/
lemma combine_collapse {N : ℕ} (g : Fin (N + 1) → ℝ) (c t' : ℝ) (ht : K * t' ≠ 0)
    (hg : (∑ j, g j) = 1) :
    -(K * t') * Real.log (Real.exp (logsumexp (fun _ => -c / (K * t')) g)) = c := by
  unfold logsumexp
  rw [Real.log_exp]
  have hsum : (∑ j, g j * Real.exp (-c / (K * t'))) = Real.exp (-c / (K * t')) := by
    rw [← Finset.sum_mul, hg, one_mul]
  rw [hsum, Real.log_exp]
  field_simp

/-- C1 amended: for every temperature and every single configuration with
exactly `order + 1` positive volumes of distinct strains, duplicated `N` times
with equal degeneracy `1/N`, the different-DOS combiner `get_free_energies`
returns, at every volume, exactly the single-configuration `free_energy` of
one copy evaluated at the clamp-adjusted temperature (temperatures below
`0.1` are replaced by `1` by the combiner; with more than `order + 1` volumes
the calibration fit is not exact — see the counterexample). -/
theorem partition_function_dup_reproduces_free_energy {N order m l : ℕ}
    (temperature : ℝ) (q_weights : Fin m → ℝ)
    (static_energies : Fin (order + 1) → ℝ) (volumes : Fin (order + 1) → ℝ)
    (frequencies : Fin (order + 1) → Fin m → Fin l → ℝ) (static_only : Bool)
    (hw : ∀ q, 0 ≤ q_weights q) (hpos : ∀ k, 0 < volumes k)
    (hvinj : Function.Injective volumes) :
    pf_get_free_energies temperature (fun _ : Fin (N + 1) => ((N : ℝ) + 1)⁻¹)
      (fun _ => q_weights) (fun _ => static_energies) (fun _ => volumes)
      (fun _ => frequencies) static_only order =
    free_energy (clamped_temperature temperature) q_weights static_energies
      frequencies static_only := by
  have hdeg : ∀ j : Fin (N + 1), 0 ≤ (fun _ : Fin (N + 1) => ((N : ℝ) + 1)⁻¹) j :=
    fun _ => by positivity
  have hw2 : ∀ (j : Fin (N + 1)) q, 0 ≤ (fun _ : Fin (N + 1) => q_weights) j q :=
    fun _ => hw
  rw [pf_get_free_energies_eq_ok _ _ _ _ _ _ _ _ hdeg hw2]
  unfold free_energy
  rw [if_pos hw]
  congr 1
  funext v
  have haligned : pf_aligned_free_energies temperature (fun _ : Fin (N + 1) => q_weights)
      (fun _ => static_energies) (fun _ => volumes) (fun _ => frequencies)
      static_only order =
      fun _ => free_energy_body (clamped_temperature temperature) q_weights
        static_energies frequencies static_only := by
    unfold pf_aligned_free_energies pf_unaligned_free_energies
    exact calibrate_identical_rows volumes _
      (strain_injective_of_pos volumes hpos hvinj)
  unfold pf_partition_all_configs
  rw [haligned]
  have hKt : K * clamped_temperature temperature ≠ 0 :=
    ne_of_gt (mul_pos K_pos (clamped_temperature_pos temperature))
  have hg : (∑ _j : Fin (N + 1), ((N : ℝ) + 1)⁻¹) = 1 := by
    rw [Finset.sum_const, Finset.card_univ, Fintype.card_fin, nsmul_eq_mul]
    have hne : ((N : ℝ) + 1) ≠ 0 := by positivity
    push_cast
    field_simp
  exact combine_collapse _ _ _ hKt hg

/-- Witness for the amended C1: two copies of a four-volume configuration at
`T = 300`, order 3. -/
theorem partition_function_dup_reproduces_free_energy_witness :
    (∀ q : Fin 1, 0 ≤ (![1] : Fin 1 → ℝ) q) ∧
      (∀ k, 0 < (![8, 1, 8/27, 1/8] : Fin 4 → ℝ) k) ∧
      Function.Injective (![8, 1, 8/27, 1/8] : Fin 4 → ℝ) ∧
      pf_get_free_energies 300 (fun _ : Fin 2 => (((1 : ℕ) : ℝ) + 1)⁻¹)
        (fun _ => ![1]) (fun _ => ![-10, -9, -8, -7])
        (fun _ => ![8, 1, 8/27, 1/8])
        ((fun _ _ _ _ => (100 : ℝ)) : Fin 2 → Fin 4 → Fin 1 → Fin 1 → ℝ) false 3 =
      free_energy (clamped_temperature 300) ![1] ![-10, -9, -8, -7]
        ((fun _ _ _ => (100 : ℝ)) : Fin 4 → Fin 1 → Fin 1 → ℝ) false := by
  have hw : ∀ q : Fin 1, 0 ≤ (![1] : Fin 1 → ℝ) q := by
    intro q
    fin_cases q <;> norm_num
  have hpos : ∀ k, 0 < (![8, 1, 8/27, 1/8] : Fin 4 → ℝ) k := by
    intro k
    fin_cases k <;> norm_num
  have hinj : Function.Injective (![8, 1, 8/27, 1/8] : Fin 4 → ℝ) := by
    intro a b hab
    fin_cases a <;> fin_cases b <;> first
      | rfl
      | (exfalso; norm_num at hab)
  exact ⟨hw, hpos, hinj,
    partition_function_dup_reproduces_free_energy (N := 1) 300 ![1] ![-10, -9, -8, -7]
      ![8, 1, 8/27, 1/8] ((fun _ _ _ => (100 : ℝ)) : Fin 4 → Fin 1 → Fin 1 → ℝ)
      false hw hpos hinj⟩

lemma free_energy_body_static {n m l : ℕ} (t : ℝ) (w : Fin m → ℝ) (E : Fin n → ℝ)
    (f : Fin n → Fin m → Fin l → ℝ) : free_energy_body t w E f true = E := by
  unfold free_energy_body
  rw [if_pos rfl]

lemma calibrate_const_rows {N n : ℕ} (v : Fin (n + 1) → ℝ) (F : Fin (n + 1) → ℝ)
    (order : ℕ) :
    calibrate_energy_on_reference (fun _ : Fin (N + 1) => v) (fun _ => F) order =
      fun _ => (polynomial_least_square_fitting
        (fun j => calculate_eulerian_strain (v 0) (v j)) F
        (fun j => calculate_eulerian_strain (v 0) (v j)) order).2 := rfl

set_option maxRecDepth 8000 in
/-- C1 counterexample: a single configuration with five volumes (one more
than `order + 1 = 4`), duplicated twice with equal degeneracy `1/2`, in
static-only mode at `T = 300` K.  The volumes are chosen with Eulerian strains
`0, 1, 2, 3, 4` and static energies `1, 0, 0, 0, 0`; the combiner calibrates
the duplicated curve through an order-3 least-squares fit, obtaining `69/70`
at the first volume instead of the static energy `1`, so `get_free_energies`
does not reproduce `free_energy` exactly. -/
theorem partition_function_dup_not_exact :
    pf_get_free_energies 300 (![1/2, 1/2] : Fin 2 → ℝ)
      (fun _ => (![1] : Fin 1 → ℝ))
      (fun _ => (![1, 0, 0, 0, 0] : Fin 5 → ℝ))
      (fun _ => (![from_eulerian_strain 1 0, from_eulerian_strain 1 1,
        from_eulerian_strain 1 2, from_eulerian_strain 1 3,
        from_eulerian_strain 1 4] : Fin 5 → ℝ))
      ((fun _ _ _ _ => (0 : ℝ)) : Fin 2 → Fin 5 → Fin 1 → Fin 1 → ℝ) true 3 ≠
    free_energy 300 (![1] : Fin 1 → ℝ) (![1, 0, 0, 0, 0] : Fin 5 → ℝ)
      ((fun _ _ _ => (0 : ℝ)) : Fin 5 → Fin 1 → Fin 1 → ℝ) true := by
  set vhat : Fin 5 → ℝ := ![from_eulerian_strain 1 0, from_eulerian_strain 1 1,
    from_eulerian_strain 1 2, from_eulerian_strain 1 3, from_eulerian_strain 1 4]
    with hvhat
  have hv0 : vhat 0 = 1 := by
    rw [hvhat]
    show from_eulerian_strain 1 0 = 1
    unfold from_eulerian_strain
    norm_num [Real.one_rpow]
  have hstrain : (fun k : Fin 5 => calculate_eulerian_strain (vhat 0) (vhat k)) =
      (![0, 1, 2, 3, 4] : Fin 5 → ℝ) := by
    funext k
    rw [hv0]
    fin_cases k <;> simp only [hvhat, Matrix.cons_val_zero, Matrix.cons_val_one,
      Matrix.head_cons, Matrix.cons_val_fin_one, Matrix.cons_val_succ] <;>
      exact calculate_of_from_eulerian_strain 1 _ one_pos (by norm_num)
  have haligned : pf_aligned_free_energies 300 (fun _ : Fin 2 => (![1] : Fin 1 → ℝ))
      (fun _ => (![1, 0, 0, 0, 0] : Fin 5 → ℝ)) (fun _ => vhat)
      ((fun _ _ _ _ => (0 : ℝ)) : Fin 2 → Fin 5 → Fin 1 → Fin 1 → ℝ) true 3 =
      fun _ : Fin 2 => (polynomial_least_square_fitting (![0, 1, 2, 3, 4] : Fin 5 → ℝ)
        ![1, 0, 0, 0, 0] ![0, 1, 2, 3, 4] 3).2 := by
    unfold pf_aligned_free_energies pf_unaligned_free_energies
    simp only [free_energy_body_static]
    rw [calibrate_const_rows, hstrain]
  have hM : (vander (![0, 1, 2, 3, 4] : Fin 5 → ℝ) 4).transpose *
      vander (![0, 1, 2, 3, 4] : Fin 5 → ℝ) 4 =
      !![5, 10, 30, 100; 10, 30, 100, 354; 30, 100, 354, 1300;
        100, 354, 1300, 4890] := by
    ext i j
    fin_cases i <;> fin_cases j <;>
      norm_num [vander, Matrix.mul_apply, Fin.sum_univ_five, Matrix.transpose_apply]
  have hMinv : (!![5, 10, 30, 100; 10, 30, 100, 354; 30, 100, 354, 1300;
      100, 354, 1300, 4890] : Matrix (Fin 4) (Fin 4) ℝ)⁻¹ =
      !![69/70, -125/84, 9/14, -1/12; -125/84, 3215/504, -325/84, 43/72;
        9/14, -325/84, 18/7, -5/12; -1/12, 43/72, -5/12, 5/72] := by
    apply Matrix.inv_eq_right_inv
    ext i j
    fin_cases i <;> fin_cases j <;>
      norm_num [Matrix.mul_apply, Fin.sum_univ_four, Matrix.one_apply, Fin.ext_iff]
  have hfit0 : (polynomial_least_square_fitting (![0, 1, 2, 3, 4] : Fin 5 → ℝ)
      ![1, 0, 0, 0, 0] ![0, 1, 2, 3, 4] 3).2 (0 : Fin 5) = 69 / 70 := by
    show ((vander (![0, 1, 2, 3, 4] : Fin 5 → ℝ) 4).mulVec
      (((vander (![0, 1, 2, 3, 4] : Fin 5 → ℝ) 4).transpose *
          vander (![0, 1, 2, 3, 4] : Fin 5 → ℝ) 4)⁻¹.mulVec
        ((vander (![0, 1, 2, 3, 4] : Fin 5 → ℝ) 4).transpose.mulVec
          ![1, 0, 0, 0, 0]))) (0 : Fin 5) = 69 / 70
    rw [hM, hMinv]
    norm_num [Matrix.mulVec, Matrix.dotProduct, vander, Fin.sum_univ_four,
      Fin.sum_univ_five, Matrix.transpose_apply,
      show ((2 : Fin 4) : ℕ) = 2 from rfl, show ((3 : Fin 4) : ℕ) = 3 from rfl]
  have hdeg : ∀ j : Fin 2, 0 ≤ (![1/2, 1/2] : Fin 2 → ℝ) j := by
    intro j
    fin_cases j <;> norm_num
  have hw2 : ∀ (j : Fin 2) (q : Fin 1), 0 ≤ (fun _ : Fin 2 => (![1] : Fin 1 → ℝ)) j q := by
    intro j q
    fin_cases q <;> norm_num
  have hw1 : ∀ q : Fin 1, 0 ≤ (![1] : Fin 1 → ℝ) q := by
    intro q
    fin_cases q <;> norm_num
  have hKt : K * clamped_temperature 300 ≠ 0 :=
    ne_of_gt (mul_pos K_pos (clamped_temperature_pos 300))
  have hg : (∑ j : Fin 2, (![1/2, 1/2] : Fin 2 → ℝ) j) = 1 := by
    rw [Fin.sum_univ_two]
    norm_num
  intro h
  rw [pf_get_free_energies_eq_ok _ _ _ _ _ _ _ _ hdeg hw2] at h
  unfold free_energy at h
  rw [if_pos hw1] at h
  have hW := Except.ok.inj h
  have h0 := congrFun hW (0 : Fin 5)
  rw [free_energy_body_static] at h0
  unfold pf_partition_all_configs at h0
  rw [haligned] at h0
  simp only [] at h0
  rw [hfit0] at h0
  rw [combine_collapse (![1/2, 1/2] : Fin 2 → ℝ) (69 / 70)
    (clamped_temperature 300) hKt hg] at h0
  norm_num at h0

namespace BMF

variable {nv : ℕ} (x y : Fin nv → ℝ)

/-- Power sum `x1` of `qha.bmf.bmf` (all the following definitions name the
local variables of that function, in source order). -/
def x1 : ℝ := ∑ i, x i

/-- Power sum `x2` of `qha.bmf.bmf`. -/
def x2 : ℝ := ∑ i, x i ^ 2

/-- Power sum `x3` of `qha.bmf.bmf`. -/
def x3 : ℝ := ∑ i, x i ^ 3

/-- Power sum `x4` of `qha.bmf.bmf`. -/
def x4 : ℝ := ∑ i, x i ^ 4

/-- Power sum `x5` of `qha.bmf.bmf`. -/
def x5 : ℝ := ∑ i, x i ^ 5

/-- Power sum `x6` of `qha.bmf.bmf`. -/
def x6 : ℝ := ∑ i, x i ^ 6

/-- Power sum `x7` of `qha.bmf.bmf`. -/
def x7 : ℝ := ∑ i, x i ^ 7

/-- Power sum `x8` of `qha.bmf.bmf`. -/
def x8 : ℝ := ∑ i, x i ^ 8

/-- Power sum `x9` of `qha.bmf.bmf`. -/
def x9 : ℝ := ∑ i, x i ^ 9

/-- Power sum `x10` of `qha.bmf.bmf`, accumulated as `(x**5)*(x**5)`. -/
def x10 : ℝ := ∑ i, x i ^ 5 * x i ^ 5

/-- Moment sum `y1` of `qha.bmf.bmf`. -/
def y1 : ℝ := ∑ i, y i

/-- Moment sum `y2` of `qha.bmf.bmf`. -/
def y2 : ℝ := ∑ i, y i * x i

/-- Moment sum `y3` of `qha.bmf.bmf`. -/
def y3 : ℝ := ∑ i, y i * x i ^ 2

/-- Moment sum `y4` of `qha.bmf.bmf`. -/
def y4 : ℝ := ∑ i, y i * x i ^ 3

/-- Moment sum `y5` of `qha.bmf.bmf`. -/
def y5 : ℝ := ∑ i, y i * x i ^ 4

/-- Moment sum `y6` of `qha.bmf.bmf`. -/
def y6 : ℝ := ∑ i, y i * x i ^ 5

/-- Elimination quantity `r1` of `qha.bmf.bmf`. -/
def r1 : ℝ := nv * x2 x - x1 x ^ 2

/-- Elimination quantity `r2` of `qha.bmf.bmf`. -/
def r2 : ℝ := nv * x3 x - x1 x * x2 x

/-- Elimination quantity `r3` of `qha.bmf.bmf`. -/
def r3 : ℝ := nv * x4 x - x1 x * x3 x

/-- Elimination quantity `r4` of `qha.bmf.bmf`. -/
def r4 : ℝ := nv * x5 x - x1 x * x4 x

/-- Elimination quantity `r5` of `qha.bmf.bmf`. -/
def r5 : ℝ := nv * x6 x - x1 x * x5 x

/-- Elimination quantity `r6` of `qha.bmf.bmf`. -/
def r6 : ℝ := nv * x4 x - x2 x ^ 2

/-- Elimination quantity `r7` of `qha.bmf.bmf`. -/
def r7 : ℝ := nv * x5 x - x2 x * x3 x

/-- Elimination quantity `r8` of `qha.bmf.bmf`. -/
def r8 : ℝ := nv * x6 x - x2 x * x4 x

/-- Elimination quantity `r9` of `qha.bmf.bmf`. -/
def r9 : ℝ := nv * x7 x - x2 x * x5 x

/-- Elimination quantity `r10` of `qha.bmf.bmf`. -/
def r10 : ℝ := nv * x6 x - x3 x ^ 2

/-- Elimination quantity `r11` of `qha.bmf.bmf`. -/
def r11 : ℝ := nv * x7 x - x3 x * x4 x

/-- Elimination quantity `r12` of `qha.bmf.bmf`. -/
def r12 : ℝ := nv * x8 x - x3 x * x5 x

/-- Elimination quantity `r13` of `qha.bmf.bmf`. -/
def r13 : ℝ := nv * x8 x - x4 x ^ 2

/-- Elimination quantity `r14` of `qha.bmf.bmf`. -/
def r14 : ℝ := nv * x9 x - x4 x * x5 x

/-- Elimination quantity `r15` of `qha.bmf.bmf`. -/
def r15 : ℝ := nv * x10 x - x5 x ^ 2

/-- Elimination quantity `s1` of `qha.bmf.bmf`. -/
def s1 : ℝ := nv * y2 x y - y1 y * x1 x

/-- Elimination quantity `s2` of `qha.bmf.bmf`. -/
def s2 : ℝ := nv * y3 x y - y1 y * x2 x

/-- Elimination quantity `s3` of `qha.bmf.bmf`. -/
def s3 : ℝ := nv * y4 x y - y1 y * x3 x

/-- Elimination quantity `s4` of `qha.bmf.bmf`. -/
def s4 : ℝ := nv * y5 x y - y1 y * x4 x

/-- Elimination quantity `s5` of `qha.bmf.bmf`. -/
def s5 : ℝ := nv * y6 x y - y1 y * x5 x

/-- Elimination quantity `p1` of `qha.bmf.bmf`. -/
def p1 : ℝ := r1 x * r6 x - r2 x ^ 2

/-- Elimination quantity `p2` of `qha.bmf.bmf`. -/
def p2 : ℝ := r1 x * r7 x - r2 x * r3 x

/-- Elimination quantity `p3` of `qha.bmf.bmf`. -/
def p3 : ℝ := r1 x * r8 x - r2 x * r4 x

/-- Elimination quantity `p4` of `qha.bmf.bmf`. -/
def p4 : ℝ := r1 x * r9 x - r2 x * r5 x

/-- Elimination quantity `p5` of `qha.bmf.bmf`. -/
def p5 : ℝ := r1 x * r10 x - r3 x ^ 2

/-- Elimination quantity `p6` of `qha.bmf.bmf`. -/
def p6 : ℝ := r1 x * r11 x - r3 x * r4 x

/-- Elimination quantity `p7` of `qha.bmf.bmf`. -/
def p7 : ℝ := r1 x * r12 x - r3 x * r5 x

/-- Elimination quantity `p8` of `qha.bmf.bmf`. -/
def p8 : ℝ := r1 x * r13 x - r4 x ^ 2

/-- Elimination quantity `p9` of `qha.bmf.bmf`. -/
def p9 : ℝ := r1 x * r14 x - r4 x * r5 x

/-- Elimination quantity `p10` of `qha.bmf.bmf`. -/
def p10 : ℝ := r1 x * r15 x - r5 x ^ 2

/-- Elimination quantity `q1` of `qha.bmf.bmf`. -/
def q1 : ℝ := r1 x * s2 x y - r2 x * s1 x y

/-- Elimination quantity `q2` of `qha.bmf.bmf`. -/
def q2 : ℝ := r1 x * s3 x y - r3 x * s1 x y

/-- Elimination quantity `q3` of `qha.bmf.bmf`. -/
def q3 : ℝ := r1 x * s4 x y - r4 x * s1 x y

/-- Elimination quantity `q4` of `qha.bmf.bmf`. -/
def q4 : ℝ := r1 x * s5 x y - r5 x * s1 x y

/-- Elimination quantity `a1` of `qha.bmf.bmf`. -/
def a1 : ℝ := p1 x * p5 x - p2 x ^ 2

/-- Elimination quantity `a2` of `qha.bmf.bmf`. -/
def a2 : ℝ := p1 x * p6 x - p2 x * p3 x

/-- Elimination quantity `a3` of `qha.bmf.bmf`. -/
def a3 : ℝ := p1 x * p7 x - p2 x * p4 x

/-- Elimination quantity `a4` of `qha.bmf.bmf`. -/
def a4 : ℝ := p1 x * p8 x - p3 x ^ 2

/-- Elimination quantity `a5` of `qha.bmf.bmf`. -/
def a5 : ℝ := p1 x * p9 x - p3 x * p4 x

/-- Elimination quantity `a6` of `qha.bmf.bmf`. -/
def a6 : ℝ := p1 x * p10 x - p4 x ^ 2

/-- Elimination quantity `b1` of `qha.bmf.bmf`. -/
def b1 : ℝ := p1 x * q2 x y - p2 x * q1 x y

/-- Elimination quantity `b2` of `qha.bmf.bmf`. -/
def b2 : ℝ := p1 x * q3 x y - p3 x * q1 x y

/-- Elimination quantity `b3` of `qha.bmf.bmf`. -/
def b3 : ℝ := p1 x * q4 x y - p4 x * q1 x y

/-- Elimination quantity `u1` of `qha.bmf.bmf`. -/
def u1 : ℝ := a1 x * a4 x - a2 x ^ 2

/-- Elimination quantity `u2` of `qha.bmf.bmf`. -/
def u2 : ℝ := a1 x * a5 x - a2 x * a3 x

/-- Elimination quantity `u3` of `qha.bmf.bmf`. -/
def u3 : ℝ := a1 x * a6 x - a3 x ^ 2

/-- Elimination quantity `v1` of `qha.bmf.bmf`. -/
def v1 : ℝ := a1 x * b2 x y - a2 x * b1 x y

/-- Elimination quantity `v2` of `qha.bmf.bmf`. -/
def v2 : ℝ := a1 x * b3 x y - a3 x * b1 x y

/-- Coefficient `Fn` of `qha.bmf.bmf`: solved in closed form for order 5, set
to `0.0` for orders 4 and 3 (undefined for other orders, see `bmf`). -/
def Fn (order : ℕ) : ℝ :=
  if order = 5 then (u1 x * v2 x y - u2 x * v1 x y) / (u1 x * u3 x - u2 x ^ 2) else 0

/-- Coefficient `E` of `qha.bmf.bmf`: `(v1 - Fn*u2)/u1` for orders 5 and 4
(for order 4 with `Fn = 0`), set to `0.0` for order 3. -/
def E (order : ℕ) : ℝ :=
  if order = 5 ∨ order = 4 then (v1 x y - Fn x y order * u2 x) / u1 x else 0

/-- Coefficient `D` of `qha.bmf.bmf`. -/
def D (order : ℕ) : ℝ :=
  (b1 x y - E x y order * a2 x - Fn x y order * a3 x) / a1 x

/-- Coefficient `C` of `qha.bmf.bmf`. -/
def C (order : ℕ) : ℝ :=
  (q1 x y - D x y order * p2 x - E x y order * p3 x - Fn x y order * p4 x) / p1 x

/-- Coefficient `B` of `qha.bmf.bmf`. -/
def B (order : ℕ) : ℝ :=
  (s1 x y - C x y order * r2 x - D x y order * r3 x - E x y order * r4 x -
    Fn x y order * r5 x) / r1 x

/-- Coefficient `A` of `qha.bmf.bmf`. -/
def A (order : ℕ) : ℝ :=
  (y1 y - B x y order * x1 x - C x y order * x2 x - D x y order * x3 x -
    E x y order * x4 x - Fn x y order * x5 x) / nv

end BMF

/-- Embedding of `qha.bmf.bmf`: the closed-form elimination fit of the
Birch--Murnaghan polynomial `y = A + B x + C x² + D x³ + E x⁴ + Fn x⁵`,
evaluated at the dense strain vector `f`.  For an order outside `{3, 4, 5}`
the source hits undefined locals (`NameError`), modelled as `none`. -/
def bmf {nv ntv : ℕ} (x y : Fin nv → ℝ) (f : Fin ntv → ℝ) (order : ℕ) :
    Option (Fin ntv → ℝ) :=
  if order = 5 ∨ order = 4 ∨ order = 3 then
    some (fun j => BMF.A x y order + BMF.B x y order * f j + BMF.C x y order * f j ^ 2 +
      BMF.D x y order * f j ^ 3 + BMF.E x y order * f j ^ 4 + BMF.Fn x y order * f j ^ 5)
  else none

namespace BMF

variable {nv : ℕ} (x y : Fin nv → ℝ)

lemma eqD (order : ℕ) (ha : a1 x ≠ 0) :
    a1 x * D x y order + a2 x * E x y order + a3 x * Fn x y order = b1 x y := by
  unfold D
  field_simp
  ring

lemma eqC (order : ℕ) (hp : p1 x ≠ 0) :
    p1 x * C x y order + p2 x * D x y order + p3 x * E x y order +
      p4 x * Fn x y order = q1 x y := by
  unfold C
  field_simp
  ring

lemma eqB (order : ℕ) (hr : r1 x ≠ 0) :
    r1 x * B x y order + r2 x * C x y order + r3 x * D x y order +
      r4 x * E x y order + r5 x * Fn x y order = s1 x y := by
  unfold B
  field_simp
  ring

lemma eqA (order : ℕ) (hn : (nv : ℝ) ≠ 0) :
    (nv : ℝ) * A x y order + x1 x * B x y order + x2 x * C x y order +
      x3 x * D x y order + x4 x * E x y order + x5 x * Fn x y order = y1 y := by
  unfold A
  field_simp
  ring

lemma eqE (order : ℕ) (ho : order = 5 ∨ order = 4) (hu : u1 x ≠ 0) :
    u1 x * E x y order + u2 x * Fn x y order = v1 x y := by
  unfold E
  rw [if_pos ho]
  field_simp
  ring

lemma eqFn5 (hu : u1 x ≠ 0) (hdet : u1 x * u3 x - u2 x ^ 2 ≠ 0) :
    u2 x * E x y 5 + u3 x * Fn x y 5 = v2 x y := by
  unfold E Fn
  rw [if_pos (show (5 : ℕ) = 5 ∨ (5 : ℕ) = 4 from Or.inl rfl),
    if_pos (rfl : (5 : ℕ) = 5)]
  field_simp
  ring

lemma eqAE2 (order : ℕ) (ho : order = 5 ∨ order = 4) (ha : a1 x ≠ 0)
    (hu : u1 x ≠ 0) :
    a2 x * D x y order + a4 x * E x y order + a5 x * Fn x y order = b2 x y := by
  have h1 := eqD x y order ha
  have h2 := eqE x y order ho hu
  have hmul : a1 x * (a2 x * D x y order + a4 x * E x y order +
      a5 x * Fn x y order) = a1 x * b2 x y := by
    simp only [u1, u2, v1] at h2
    linear_combination a2 x * h1 + h2
  exact mul_left_cancel₀ ha hmul

lemma eqAE3 (ha : a1 x ≠ 0) (hu : u1 x ≠ 0)
    (hdet : u1 x * u3 x - u2 x ^ 2 ≠ 0) :
    a3 x * D x y 5 + a5 x * E x y 5 + a6 x * Fn x y 5 = b3 x y := by
  have h1 := eqD x y 5 ha
  have h2 := eqFn5 x y hu hdet
  have hmul : a1 x * (a3 x * D x y 5 + a5 x * E x y 5 + a6 x * Fn x y 5) =
      a1 x * b3 x y := by
    simp only [u2, u3, v2] at h2
    linear_combination a3 x * h1 + h2
  exact mul_left_cancel₀ ha hmul

lemma eqPE2 (order : ℕ) (hp : p1 x ≠ 0) (ha : a1 x ≠ 0) :
    p2 x * C x y order + p5 x * D x y order + p6 x * E x y order +
      p7 x * Fn x y order = q2 x y := by
  have h1 := eqC x y order hp
  have h2 := eqD x y order ha
  have hmul : p1 x * (p2 x * C x y order + p5 x * D x y order +
      p6 x * E x y order + p7 x * Fn x y order) = p1 x * q2 x y := by
    simp only [a1, a2, a3, b1] at h2
    linear_combination p2 x * h1 + h2
  exact mul_left_cancel₀ hp hmul

lemma eqPE3 (order : ℕ) (ho : order = 5 ∨ order = 4) (hp : p1 x ≠ 0)
    (ha : a1 x ≠ 0) (hu : u1 x ≠ 0) :
    p3 x * C x y order + p6 x * D x y order + p8 x * E x y order +
      p9 x * Fn x y order = q3 x y := by
  have h1 := eqC x y order hp
  have h2 := eqAE2 x y order ho ha hu
  have hmul : p1 x * (p3 x * C x y order + p6 x * D x y order +
      p8 x * E x y order + p9 x * Fn x y order) = p1 x * q3 x y := by
    simp only [a2, a4, a5, b2] at h2
    linear_combination p3 x * h1 + h2
  exact mul_left_cancel₀ hp hmul

lemma eqPE4 (hp : p1 x ≠ 0) (ha : a1 x ≠ 0) (hu : u1 x ≠ 0)
    (hdet : u1 x * u3 x - u2 x ^ 2 ≠ 0) :
    p4 x * C x y 5 + p7 x * D x y 5 + p9 x * E x y 5 + p10 x * Fn x y 5 =
      q4 x y := by
  have h1 := eqC x y 5 hp
  have h2 := eqAE3 x y ha hu hdet
  have hmul : p1 x * (p4 x * C x y 5 + p7 x * D x y 5 + p9 x * E x y 5 +
      p10 x * Fn x y 5) = p1 x * q4 x y := by
    simp only [a3, a5, a6, b3] at h2
    linear_combination p4 x * h1 + h2
  exact mul_left_cancel₀ hp hmul

lemma eqRE2 (order : ℕ) (hr : r1 x ≠ 0) (hp : p1 x ≠ 0) :
    r2 x * B x y order + r6 x * C x y order + r7 x * D x y order +
      r8 x * E x y order + r9 x * Fn x y order = s2 x y := by
  have h1 := eqB x y order hr
  have h2 := eqC x y order hp
  have hmul : r1 x * (r2 x * B x y order + r6 x * C x y order +
      r7 x * D x y order + r8 x * E x y order + r9 x * Fn x y order) =
      r1 x * s2 x y := by
    simp only [p1, p2, p3, p4, q1] at h2
    linear_combination r2 x * h1 + h2
  exact mul_left_cancel₀ hr hmul

lemma eqRE3 (order : ℕ) (hr : r1 x ≠ 0) (hp : p1 x ≠ 0) (ha : a1 x ≠ 0) :
    r3 x * B x y order + r7 x * C x y order + r10 x * D x y order +
      r11 x * E x y order + r12 x * Fn x y order = s3 x y := by
  have h1 := eqB x y order hr
  have h2 := eqPE2 x y order hp ha
  have hmul : r1 x * (r3 x * B x y order + r7 x * C x y order +
      r10 x * D x y order + r11 x * E x y order + r12 x * Fn x y order) =
      r1 x * s3 x y := by
    simp only [p2, p5, p6, p7, q2] at h2
    linear_combination r3 x * h1 + h2
  exact mul_left_cancel₀ hr hmul

lemma eqRE4 (order : ℕ) (ho : order = 5 ∨ order = 4) (hr : r1 x ≠ 0)
    (hp : p1 x ≠ 0) (ha : a1 x ≠ 0) (hu : u1 x ≠ 0) :
    r4 x * B x y order + r8 x * C x y order + r11 x * D x y order +
      r13 x * E x y order + r14 x * Fn x y order = s4 x y := by
  have h1 := eqB x y order hr
  have h2 := eqPE3 x y order ho hp ha hu
  have hmul : r1 x * (r4 x * B x y order + r8 x * C x y order +
      r11 x * D x y order + r13 x * E x y order + r14 x * Fn x y order) =
      r1 x * s4 x y := by
    simp only [p3, p6, p8, p9, q3] at h2
    linear_combination r4 x * h1 + h2
  exact mul_left_cancel₀ hr hmul

lemma eqRE5 (hr : r1 x ≠ 0) (hp : p1 x ≠ 0) (ha : a1 x ≠ 0) (hu : u1 x ≠ 0)
    (hdet : u1 x * u3 x - u2 x ^ 2 ≠ 0) :
    r5 x * B x y 5 + r9 x * C x y 5 + r12 x * D x y 5 + r14 x * E x y 5 +
      r15 x * Fn x y 5 = s5 x y := by
  have h1 := eqB x y 5 hr
  have h2 := eqPE4 x y hp ha hu hdet
  have hmul : r1 x * (r5 x * B x y 5 + r9 x * C x y 5 + r12 x * D x y 5 +
      r14 x * E x y 5 + r15 x * Fn x y 5) = r1 x * s5 x y := by
    simp only [p4, p7, p9, p10, q4] at h2
    linear_combination r5 x * h1 + h2
  exact mul_left_cancel₀ hr hmul

lemma eqN1 (order : ℕ) (hn : (nv : ℝ) ≠ 0) (hr : r1 x ≠ 0) :
    x1 x * A x y order + x2 x * B x y order + x3 x * C x y order +
      x4 x * D x y order + x5 x * E x y order + x6 x * Fn x y order = y2 x y := by
  have h1 := eqA x y order hn
  have h2 := eqB x y order hr
  have hmul : (nv : ℝ) * (x1 x * A x y order + x2 x * B x y order +
      x3 x * C x y order + x4 x * D x y order + x5 x * E x y order +
      x6 x * Fn x y order) = (nv : ℝ) * y2 x y := by
    simp only [r1, r2, r3, r4, r5, s1] at h2
    linear_combination x1 x * h1 + h2
  exact mul_left_cancel₀ hn hmul

lemma eqN2 (order : ℕ) (hn : (nv : ℝ) ≠ 0) (hr : r1 x ≠ 0) (hp : p1 x ≠ 0) :
    x2 x * A x y order + x3 x * B x y order + x4 x * C x y order +
      x5 x * D x y order + x6 x * E x y order + x7 x * Fn x y order = y3 x y := by
  have h1 := eqA x y order hn
  have h2 := eqRE2 x y order hr hp
  have hmul : (nv : ℝ) * (x2 x * A x y order + x3 x * B x y order +
      x4 x * C x y order + x5 x * D x y order + x6 x * E x y order +
      x7 x * Fn x y order) = (nv : ℝ) * y3 x y := by
    simp only [r2, r6, r7, r8, r9, s2] at h2
    linear_combination x2 x * h1 + h2
  exact mul_left_cancel₀ hn hmul

lemma eqN3 (order : ℕ) (hn : (nv : ℝ) ≠ 0) (hr : r1 x ≠ 0) (hp : p1 x ≠ 0)
    (ha : a1 x ≠ 0) :
    x3 x * A x y order + x4 x * B x y order + x5 x * C x y order +
      x6 x * D x y order + x7 x * E x y order + x8 x * Fn x y order = y4 x y := by
  have h1 := eqA x y order hn
  have h2 := eqRE3 x y order hr hp ha
  have hmul : (nv : ℝ) * (x3 x * A x y order + x4 x * B x y order +
      x5 x * C x y order + x6 x * D x y order + x7 x * E x y order +
      x8 x * Fn x y order) = (nv : ℝ) * y4 x y := by
    simp only [r3, r7, r10, r11, r12, s3] at h2
    linear_combination x3 x * h1 + h2
  exact mul_left_cancel₀ hn hmul

lemma eqN4 (order : ℕ) (ho : order = 5 ∨ order = 4) (hn : (nv : ℝ) ≠ 0)
    (hr : r1 x ≠ 0) (hp : p1 x ≠ 0) (ha : a1 x ≠ 0) (hu : u1 x ≠ 0) :
    x4 x * A x y order + x5 x * B x y order + x6 x * C x y order +
      x7 x * D x y order + x8 x * E x y order + x9 x * Fn x y order = y5 x y := by
  have h1 := eqA x y order hn
  have h2 := eqRE4 x y order ho hr hp ha hu
  have hmul : (nv : ℝ) * (x4 x * A x y order + x5 x * B x y order +
      x6 x * C x y order + x7 x * D x y order + x8 x * E x y order +
      x9 x * Fn x y order) = (nv : ℝ) * y5 x y := by
    simp only [r4, r8, r11, r13, r14, s4] at h2
    linear_combination x4 x * h1 + h2
  exact mul_left_cancel₀ hn hmul

lemma msum_one : (∑ _i : Fin nv, (1 : ℝ)) = (nv : ℝ) := by simp

lemma msum1 : (∑ i, x i) = x1 x := rfl

lemma msum2 : (∑ i, x i ^ 2) = x2 x := rfl

lemma msum3 : (∑ i, x i ^ 3) = x3 x := rfl

lemma msum4 : (∑ i, x i ^ 4) = x4 x := rfl

lemma msum5 : (∑ i, x i ^ 5) = x5 x := rfl

lemma msum6 : (∑ i, x i ^ 6) = x6 x := rfl

lemma msum7 : (∑ i, x i ^ 7) = x7 x := rfl

lemma msum8 : (∑ i, x i ^ 8) = x8 x := rfl

lemma msum9 : (∑ i, x i ^ 9) = x9 x := rfl

lemma msum10 : (∑ i, x i ^ 10) = x10 x :=
  Finset.sum_congr rfl fun i _ => pow_add (x i) 5 5

lemma wsum1 : (∑ i, y i) = y1 y := rfl

lemma wsum2 : (∑ i, y i * x i) = y2 x y := rfl

lemma wsum3 : (∑ i, y i * x i ^ 2) = y3 x y := rfl

lemma wsum4 : (∑ i, y i * x i ^ 3) = y4 x y := rfl

lemma wsum5 : (∑ i, y i * x i ^ 4) = y5 x y := rfl

lemma wsum6 : (∑ i, y i * x i ^ 5) = y6 x y := rfl

lemma eqN5 (hn : (nv : ℝ) ≠ 0) (hr : r1 x ≠ 0) (hp : p1 x ≠ 0) (ha : a1 x ≠ 0)
    (hu : u1 x ≠ 0) (hdet : u1 x * u3 x - u2 x ^ 2 ≠ 0) :
    x5 x * A x y 5 + x6 x * B x y 5 + x7 x * C x y 5 + x8 x * D x y 5 +
      x9 x * E x y 5 + x10 x * Fn x y 5 = y6 x y := by
  have h1 := eqA x y 5 hn
  have h2 := eqRE5 x y hr hp ha hu hdet
  have hmul : (nv : ℝ) * (x5 x * A x y 5 + x6 x * B x y 5 + x7 x * C x y 5 +
      x8 x * D x y 5 + x9 x * E x y 5 + x10 x * Fn x y 5) =
      (nv : ℝ) * y6 x y := by
    simp only [r5, r9, r12, r14, r15, s5] at h2
    linear_combination x5 x * h1 + h2
  exact mul_left_cancel₀ hn hmul

end BMF

lemma mulVec_eq_sum {d e : ℕ} (M : Matrix (Fin d) (Fin e) ℝ) (c : Fin e → ℝ)
    (k : Fin d) : M.mulVec c k = ∑ j, M k j * c j := rfl

lemma vanderT_mul_apply {nv : ℕ} (x : Fin nv → ℝ) (cols : ℕ) (k j : Fin cols) :
    ((vander x cols).transpose * vander x cols) k j =
      ∑ i, x i ^ ((k : ℕ) + (j : ℕ)) := by
  rw [Matrix.mul_apply]
  refine Finset.sum_congr rfl fun i _ => ?_
  rw [Matrix.transpose_apply]
  show x i ^ (k : ℕ) * x i ^ (j : ℕ) = _
  rw [pow_add]

lemma vanderT_mulVec_apply {nv : ℕ} (x y : Fin nv → ℝ) (cols : ℕ) (k : Fin cols) :
    ((vander x cols).transpose.mulVec y) k = ∑ i, y i * x i ^ (k : ℕ) := by
  rw [mulVec_eq_sum]
  refine Finset.sum_congr rfl fun i _ => ?_
  rw [Matrix.transpose_apply]
  show x i ^ (k : ℕ) * y i = _
  rw [mul_comm]

set_option maxRecDepth 4000 in
/-- C3: for every order in `{3,4,5}` and every non-degenerate sample (the
elimination pivots `nv`, `r1`, `p1`, `a1` — and, for the higher orders, `u1`
and the final 2×2 determinant `u1·u3 − u2²` — are nonzero, and the normal
matrix of the least-squares problem is invertible), the closed-form
elimination fitter `bmf` produces the same fitted values at every evaluation
strain as the Vandermonde ordinary-least-squares fitter
`polynomial_least_square_fitting` of the same order. -/
theorem bmf_eq_polynomial_fit {nv ntv : ℕ} (x y : Fin nv → ℝ) (f : Fin ntv → ℝ)
    (order : ℕ) (horder : order = 3 ∨ order = 4 ∨ order = 5)
    (hn : (nv : ℝ) ≠ 0) (hr : BMF.r1 x ≠ 0) (hp : BMF.p1 x ≠ 0)
    (ha : BMF.a1 x ≠ 0) (hu : order ≠ 3 → BMF.u1 x ≠ 0)
    (hdet2 : order = 5 → BMF.u1 x * BMF.u3 x - BMF.u2 x ^ 2 ≠ 0)
    (hM : IsUnit (((vander x (order + 1)).transpose * vander x (order + 1)).det)) :
    bmf x y f order = some ((polynomial_least_square_fitting x y f order).2) := by
  rcases horder with h3 | h4 | h5
  · subst h3
    have hE : BMF.E x y 3 = 0 := by
      unfold BMF.E
      rw [if_neg (by norm_num)]
    have hFn : BMF.Fn x y 3 = 0 := by
      unfold BMF.Fn
      rw [if_neg (by norm_num)]
    have hN0 := BMF.eqA x y 3 hn
    have hN1 := BMF.eqN1 x y 3 hn hr
    have hN2 := BMF.eqN2 x y 3 hn hr hp
    have hN3 := BMF.eqN3 x y 3 hn hr hp ha
    rw [hE, hFn] at hN0 hN1 hN2 hN3
    simp only [BMF.x1, BMF.x2, BMF.x3, BMF.x4, BMF.x5, BMF.x6, BMF.x7, BMF.x8,
      BMF.y1, BMF.y2, BMF.y3, BMF.y4] at hN0 hN1 hN2 hN3
    have hM4 : IsUnit (((vander x 4).transpose * vander x 4).det) := hM
    have hsolve : ((vander x 4).transpose * vander x 4).mulVec
        ![BMF.A x y 3, BMF.B x y 3, BMF.C x y 3, BMF.D x y 3] =
        (vander x 4).transpose.mulVec y := by
      funext k
      rw [mulVec_eq_sum, vanderT_mulVec_apply x y 4, Fin.sum_univ_four,
        vanderT_mul_apply x 4, vanderT_mul_apply x 4, vanderT_mul_apply x 4,
        vanderT_mul_apply x 4]
      fin_cases k
      · norm_num [show ((2 : Fin 4) : ℕ) = 2 from rfl,
          show ((3 : Fin 4) : ℕ) = 3 from rfl]
        linear_combination hN0
      · norm_num [show ((2 : Fin 4) : ℕ) = 2 from rfl,
          show ((3 : Fin 4) : ℕ) = 3 from rfl]
        linear_combination hN1
      · norm_num [show ((2 : Fin 4) : ℕ) = 2 from rfl,
          show ((3 : Fin 4) : ℕ) = 3 from rfl]
        linear_combination hN2
      · norm_num [show ((2 : Fin 4) : ℕ) = 2 from rfl,
          show ((3 : Fin 4) : ℕ) = 3 from rfl]
        linear_combination hN3
    have hcoef : (polynomial_least_square_fitting x y f 3).1 =
        ![BMF.A x y 3, BMF.B x y 3, BMF.C x y 3, BMF.D x y 3] := by
      show (((vander x 4).transpose * vander x 4)⁻¹).mulVec
        ((vander x 4).transpose.mulVec y) = _
      rw [← hsolve, Matrix.mulVec_mulVec, Matrix.nonsing_inv_mul _ hM4,
        Matrix.one_mulVec]
    unfold bmf
    rw [if_pos (show (3 : ℕ) = 5 ∨ (3 : ℕ) = 4 ∨ (3 : ℕ) = 3 by norm_num)]
    congr 1
    funext j
    have hval : (polynomial_least_square_fitting x y f 3).2 j =
        ∑ t : Fin 4, f j ^ (t : ℕ) * (polynomial_least_square_fitting x y f 3).1 t :=
      rfl
    rw [hval, hcoef, Fin.sum_univ_four, hE, hFn]
    norm_num [show ((2 : Fin 4) : ℕ) = 2 from rfl, show ((3 : Fin 4) : ℕ) = 3 from rfl]
    ring
  · subst h4
    have ho4 : (4 : ℕ) = 5 ∨ (4 : ℕ) = 4 := Or.inr rfl
    have hu4 : BMF.u1 x ≠ 0 := hu (by norm_num)
    have hFn : BMF.Fn x y 4 = 0 := by
      unfold BMF.Fn
      rw [if_neg (by norm_num)]
    have hN0 := BMF.eqA x y 4 hn
    have hN1 := BMF.eqN1 x y 4 hn hr
    have hN2 := BMF.eqN2 x y 4 hn hr hp
    have hN3 := BMF.eqN3 x y 4 hn hr hp ha
    have hN4 := BMF.eqN4 x y 4 ho4 hn hr hp ha hu4
    rw [hFn] at hN0 hN1 hN2 hN3 hN4
    simp only [BMF.x1, BMF.x2, BMF.x3, BMF.x4, BMF.x5, BMF.x6, BMF.x7, BMF.x8,
      BMF.x9, BMF.y1, BMF.y2, BMF.y3, BMF.y4, BMF.y5] at hN0 hN1 hN2 hN3 hN4
    have hM5 : IsUnit (((vander x 5).transpose * vander x 5).det) := hM
    have hsolve : ((vander x 5).transpose * vander x 5).mulVec
        ![BMF.A x y 4, BMF.B x y 4, BMF.C x y 4, BMF.D x y 4, BMF.E x y 4] =
        (vander x 5).transpose.mulVec y := by
      funext k
      rw [mulVec_eq_sum, vanderT_mulVec_apply x y 5, Fin.sum_univ_five,
        vanderT_mul_apply x 5, vanderT_mul_apply x 5, vanderT_mul_apply x 5,
        vanderT_mul_apply x 5, vanderT_mul_apply x 5]
      fin_cases k
      · norm_num [show ((2 : Fin 5) : ℕ) = 2 from rfl,
          show ((3 : Fin 5) : ℕ) = 3 from rfl, show ((4 : Fin 5) : ℕ) = 4 from rfl]
        linear_combination hN0
      · norm_num [show ((2 : Fin 5) : ℕ) = 2 from rfl,
          show ((3 : Fin 5) : ℕ) = 3 from rfl, show ((4 : Fin 5) : ℕ) = 4 from rfl]
        linear_combination hN1
      · norm_num [show ((2 : Fin 5) : ℕ) = 2 from rfl,
          show ((3 : Fin 5) : ℕ) = 3 from rfl, show ((4 : Fin 5) : ℕ) = 4 from rfl]
        linear_combination hN2
      · norm_num [show ((2 : Fin 5) : ℕ) = 2 from rfl,
          show ((3 : Fin 5) : ℕ) = 3 from rfl, show ((4 : Fin 5) : ℕ) = 4 from rfl]
        linear_combination hN3
      · norm_num [show ((2 : Fin 5) : ℕ) = 2 from rfl,
          show ((3 : Fin 5) : ℕ) = 3 from rfl, show ((4 : Fin 5) : ℕ) = 4 from rfl]
        linear_combination hN4
    have hcoef : (polynomial_least_square_fitting x y f 4).1 =
        ![BMF.A x y 4, BMF.B x y 4, BMF.C x y 4, BMF.D x y 4, BMF.E x y 4] := by
      show (((vander x 5).transpose * vander x 5)⁻¹).mulVec
        ((vander x 5).transpose.mulVec y) = _
      rw [← hsolve, Matrix.mulVec_mulVec, Matrix.nonsing_inv_mul _ hM5,
        Matrix.one_mulVec]
    unfold bmf
    rw [if_pos (show (4 : ℕ) = 5 ∨ (4 : ℕ) = 4 ∨ (4 : ℕ) = 3 by norm_num)]
    congr 1
    funext j
    have hval : (polynomial_least_square_fitting x y f 4).2 j =
        ∑ t : Fin 5, f j ^ (t : ℕ) * (polynomial_least_square_fitting x y f 4).1 t :=
      rfl
    rw [hval, hcoef, Fin.sum_univ_five, hFn]
    norm_num [show ((2 : Fin 5) : ℕ) = 2 from rfl, show ((3 : Fin 5) : ℕ) = 3 from rfl,
      show ((4 : Fin 5) : ℕ) = 4 from rfl]
    ring
  · subst h5
    have hu5 : BMF.u1 x ≠ 0 := hu (by norm_num)
    have hdet5 : BMF.u1 x * BMF.u3 x - BMF.u2 x ^ 2 ≠ 0 := hdet2 rfl
    have ho5 : (5 : ℕ) = 5 ∨ (5 : ℕ) = 4 := Or.inl rfl
    have hN0 := BMF.eqA x y 5 hn
    have hN1 := BMF.eqN1 x y 5 hn hr
    have hN2 := BMF.eqN2 x y 5 hn hr hp
    have hN3 := BMF.eqN3 x y 5 hn hr hp ha
    have hN4 := BMF.eqN4 x y 5 ho5 hn hr hp ha hu5
    have hN5 := BMF.eqN5 x y hn hr hp ha hu5 hdet5
    rw [show BMF.x10 x = ∑ i, x i ^ 10 from (BMF.msum10 x).symm] at hN5
    simp only [BMF.x1, BMF.x2, BMF.x3, BMF.x4, BMF.x5, BMF.x6, BMF.x7, BMF.x8,
      BMF.x9, BMF.y1, BMF.y2, BMF.y3, BMF.y4, BMF.y5, BMF.y6] at hN0
    simp only [BMF.x1, BMF.x2, BMF.x3, BMF.x4, BMF.x5, BMF.x6, BMF.x7, BMF.x8,
      BMF.x9, BMF.y1, BMF.y2, BMF.y3, BMF.y4, BMF.y5, BMF.y6] at hN1
    simp only [BMF.x1, BMF.x2, BMF.x3, BMF.x4, BMF.x5, BMF.x6, BMF.x7, BMF.x8,
      BMF.x9, BMF.y1, BMF.y2, BMF.y3, BMF.y4, BMF.y5, BMF.y6] at hN2
    simp only [BMF.x1, BMF.x2, BMF.x3, BMF.x4, BMF.x5, BMF.x6, BMF.x7, BMF.x8,
      BMF.x9, BMF.y1, BMF.y2, BMF.y3, BMF.y4, BMF.y5, BMF.y6] at hN3
    simp only [BMF.x1, BMF.x2, BMF.x3, BMF.x4, BMF.x5, BMF.x6, BMF.x7, BMF.x8,
      BMF.x9, BMF.y1, BMF.y2, BMF.y3, BMF.y4, BMF.y5, BMF.y6] at hN4
    simp only [BMF.x1, BMF.x2, BMF.x3, BMF.x4, BMF.x5, BMF.x6, BMF.x7, BMF.x8,
      BMF.x9, BMF.y1, BMF.y2, BMF.y3, BMF.y4, BMF.y5, BMF.y6] at hN5
    have hsolve : ((vander x (5 + 1)).transpose * vander x (5 + 1)).mulVec
        ![BMF.A x y 5, BMF.B x y 5, BMF.C x y 5, BMF.D x y 5, BMF.E x y 5,
          BMF.Fn x y 5] =
        (vander x (5 + 1)).transpose.mulVec y := by
      funext k
      rw [mulVec_eq_sum, vanderT_mulVec_apply x y (5 + 1), Fin.sum_univ_six,
        vanderT_mul_apply x (5 + 1), vanderT_mul_apply x (5 + 1),
        vanderT_mul_apply x (5 + 1), vanderT_mul_apply x (5 + 1),
        vanderT_mul_apply x (5 + 1), vanderT_mul_apply x (5 + 1)]
      fin_cases k
      · norm_num [show ((2 : Fin 6) : ℕ) = 2 from rfl,
          show ((3 : Fin 6) : ℕ) = 3 from rfl, show ((4 : Fin 6) : ℕ) = 4 from rfl,
          show ((5 : Fin 6) : ℕ) = 5 from rfl,
          show (![BMF.A x y 5, BMF.B x y 5, BMF.C x y 5, BMF.D x y 5,
            BMF.E x y 5, BMF.Fn x y 5] : Fin 6 → ℝ) 5 = BMF.Fn x y 5 from rfl]
        linear_combination hN0
      · norm_num [show ((2 : Fin 6) : ℕ) = 2 from rfl,
          show ((3 : Fin 6) : ℕ) = 3 from rfl, show ((4 : Fin 6) : ℕ) = 4 from rfl,
          show ((5 : Fin 6) : ℕ) = 5 from rfl,
          show (![BMF.A x y 5, BMF.B x y 5, BMF.C x y 5, BMF.D x y 5,
            BMF.E x y 5, BMF.Fn x y 5] : Fin 6 → ℝ) 5 = BMF.Fn x y 5 from rfl]
        linear_combination hN1
      · norm_num [show ((2 : Fin 6) : ℕ) = 2 from rfl,
          show ((3 : Fin 6) : ℕ) = 3 from rfl, show ((4 : Fin 6) : ℕ) = 4 from rfl,
          show ((5 : Fin 6) : ℕ) = 5 from rfl,
          show (![BMF.A x y 5, BMF.B x y 5, BMF.C x y 5, BMF.D x y 5,
            BMF.E x y 5, BMF.Fn x y 5] : Fin 6 → ℝ) 5 = BMF.Fn x y 5 from rfl]
        linear_combination hN2
      · norm_num [show ((2 : Fin 6) : ℕ) = 2 from rfl,
          show ((3 : Fin 6) : ℕ) = 3 from rfl, show ((4 : Fin 6) : ℕ) = 4 from rfl,
          show ((5 : Fin 6) : ℕ) = 5 from rfl,
          show (![BMF.A x y 5, BMF.B x y 5, BMF.C x y 5, BMF.D x y 5,
            BMF.E x y 5, BMF.Fn x y 5] : Fin 6 → ℝ) 5 = BMF.Fn x y 5 from rfl]
        linear_combination hN3
      · norm_num [show ((2 : Fin 6) : ℕ) = 2 from rfl,
          show ((3 : Fin 6) : ℕ) = 3 from rfl, show ((4 : Fin 6) : ℕ) = 4 from rfl,
          show ((5 : Fin 6) : ℕ) = 5 from rfl,
          show (![BMF.A x y 5, BMF.B x y 5, BMF.C x y 5, BMF.D x y 5,
            BMF.E x y 5, BMF.Fn x y 5] : Fin 6 → ℝ) 5 = BMF.Fn x y 5 from rfl]
        linear_combination hN4
      · norm_num [show ((2 : Fin 6) : ℕ) = 2 from rfl,
          show ((3 : Fin 6) : ℕ) = 3 from rfl, show ((4 : Fin 6) : ℕ) = 4 from rfl,
          show ((5 : Fin 6) : ℕ) = 5 from rfl,
          show (![BMF.A x y 5, BMF.B x y 5, BMF.C x y 5, BMF.D x y 5,
            BMF.E x y 5, BMF.Fn x y 5] : Fin 6 → ℝ) 5 = BMF.Fn x y 5 from rfl]
        linear_combination hN5
    have hcoef : (polynomial_least_square_fitting x y f 5).1 =
        ![BMF.A x y 5, BMF.B x y 5, BMF.C x y 5, BMF.D x y 5, BMF.E x y 5,
          BMF.Fn x y 5] := by
      show (((vander x (5 + 1)).transpose * vander x (5 + 1))⁻¹).mulVec
        ((vander x (5 + 1)).transpose.mulVec y) = _
      rw [← hsolve, Matrix.mulVec_mulVec, Matrix.nonsing_inv_mul _ hM,
        Matrix.one_mulVec]
    unfold bmf
    rw [if_pos (show (5 : ℕ) = 5 ∨ (5 : ℕ) = 4 ∨ (5 : ℕ) = 3 by norm_num)]
    congr 1
    funext j
    have hval : (polynomial_least_square_fitting x y f 5).2 j =
        ∑ t : Fin 6, f j ^ (t : ℕ) * (polynomial_least_square_fitting x y f 5).1 t :=
      rfl
    rw [hval, hcoef, Fin.sum_univ_six]
    norm_num [show ((2 : Fin 6) : ℕ) = 2 from rfl, show ((3 : Fin 6) : ℕ) = 3 from rfl,
      show ((4 : Fin 6) : ℕ) = 4 from rfl, show ((5 : Fin 6) : ℕ) = 5 from rfl,
          show (![BMF.A x y 5, BMF.B x y 5, BMF.C x y 5, BMF.D x y 5,
            BMF.E x y 5, BMF.Fn x y 5] : Fin 6 → ℝ) 5 = BMF.Fn x y 5 from rfl]
    ring

set_option maxRecDepth 4000 in
/-- Witness for C3 at order 3 with strain points `0, 1, 2, 3` and values
`1, 2, 4, 8`, evaluated at the strain `1/2`. -/
theorem bmf_eq_polynomial_fit_witness :
    ((3 : ℕ) = 3 ∨ (3 : ℕ) = 4 ∨ (3 : ℕ) = 5) ∧
      (((4 : ℕ) : ℝ)) ≠ 0 ∧
      BMF.r1 (![0, 1, 2, 3] : Fin 4 → ℝ) ≠ 0 ∧
      BMF.p1 (![0, 1, 2, 3] : Fin 4 → ℝ) ≠ 0 ∧
      BMF.a1 (![0, 1, 2, 3] : Fin 4 → ℝ) ≠ 0 ∧
      ((3 : ℕ) ≠ 3 → BMF.u1 (![0, 1, 2, 3] : Fin 4 → ℝ) ≠ 0) ∧
      ((3 : ℕ) = 5 → BMF.u1 (![0, 1, 2, 3] : Fin 4 → ℝ) *
        BMF.u3 (![0, 1, 2, 3] : Fin 4 → ℝ) -
        BMF.u2 (![0, 1, 2, 3] : Fin 4 → ℝ) ^ 2 ≠ 0) ∧
      IsUnit (((vander (![0, 1, 2, 3] : Fin 4 → ℝ) (3 + 1)).transpose *
        vander (![0, 1, 2, 3] : Fin 4 → ℝ) (3 + 1)).det) ∧
      bmf (![0, 1, 2, 3] : Fin 4 → ℝ) ![1, 2, 4, 8] (![1/2] : Fin 1 → ℝ) 3 =
        some ((polynomial_least_square_fitting (![0, 1, 2, 3] : Fin 4 → ℝ)
          ![1, 2, 4, 8] ![1/2] 3).2) := by
  have hinj : Function.Injective (![0, 1, 2, 3] : Fin 4 → ℝ) := by
    intro a b hab
    fin_cases a <;> fin_cases b <;> first
      | rfl
      | (exfalso; norm_num at hab)
  have hr : BMF.r1 (![0, 1, 2, 3] : Fin 4 → ℝ) ≠ 0 := by
    norm_num [BMF.r1, BMF.x1, BMF.x2, Fin.sum_univ_four]
  have hp : BMF.p1 (![0, 1, 2, 3] : Fin 4 → ℝ) ≠ 0 := by
    norm_num [BMF.p1, BMF.r1, BMF.r2, BMF.r6, BMF.x1, BMF.x2, BMF.x3, BMF.x4,
      Fin.sum_univ_four]
  have ha : BMF.a1 (![0, 1, 2, 3] : Fin 4 → ℝ) ≠ 0 := by
    norm_num [BMF.a1, BMF.p1, BMF.p2, BMF.p5, BMF.r1, BMF.r2, BMF.r3, BMF.r6,
      BMF.r7, BMF.r10, BMF.x1, BMF.x2, BMF.x3, BMF.x4, BMF.x5, BMF.x6,
      Fin.sum_univ_four]
  have hM : IsUnit (((vander (![0, 1, 2, 3] : Fin 4 → ℝ) (3 + 1)).transpose *
      vander (![0, 1, 2, 3] : Fin 4 → ℝ) (3 + 1)).det) := by
    rw [Matrix.det_mul, Matrix.det_transpose]
    exact (vander_square_isUnit_det _ hinj).mul (vander_square_isUnit_det _ hinj)
  refine ⟨Or.inl rfl, by norm_num, hr, hp, ha, fun h => absurd rfl h,
    fun h => absurd h (by norm_num), hM, ?_⟩
  exact bmf_eq_polynomial_fit (![0, 1, 2, 3] : Fin 4 → ℝ) ![1, 2, 4, 8]
    (![1/2] : Fin 1 → ℝ) 3 (Or.inl rfl) (by norm_num) hr hp ha
    (fun h => absurd rfl h) (fun h => absurd h (by norm_num)) hM

/-- Embedding of `qha.v2p._lagrange4`: third-order Lagrange interpolation
through four points. -/
def lagrange4 (x x0 x1 x2 x3 y0 y1 y2 y3 : ℝ) : ℝ :=
  (x - x1) * (x - x2) * (x - x3) / (x0 - x1) / (x0 - x2) / (x0 - x3) * y0 +
  (x - x0) * (x - x2) * (x - x3) / (x1 - x0) / (x1 - x2) / (x1 - x3) * y1 +
  (x - x0) * (x - x1) * (x - x3) / (x2 - x0) / (x2 - x1) / (x2 - x3) * y2 +
  (x - x0) * (x - x1) * (x - x2) / (x3 - x0) / (x3 - x1) / (x3 - x2) * y3

/-- The binary-search loop of `qha.tools.vectorized_find_nearest` (and
`find_nearest`): narrow `[j_low, j_up]` until the window has width one. -/
def bsearch (arr : ℕ → ℝ) (value : ℝ) (j_low j_up : ℕ) : ℕ :=
  if h : 1 < j_up - j_low then
    if arr ((j_up + j_low) / 2) ≤ value then bsearch arr value ((j_up + j_low) / 2) j_up
    else bsearch arr value j_low ((j_up + j_low) / 2)
  else j_low
termination_by j_up - j_low
decreasing_by
  · omega
  · omega

/-- Embedding of `qha.tools.vectorized_find_nearest` on an array of length
`n`: the initial writes for out-of-range values are dead stores, overwritten
by the unconditional binary search, so every entry is the search result. -/
def vectorized_find_nearest (n : ℕ) (arr : ℕ → ℝ) (values : List ℝ) : List ℕ :=
  values.map fun value => bsearch arr value 0 (n - 1)

/-- Fail-fast sequencing of a list of optional results, modelling a Python
loop in which any raised exception aborts the whole call. -/
def traverseOption {α β : Type} (f : α → Option β) : List α → Option (List β)
  | [] => some []
  | a :: l => (f a).bind fun b => (traverseOption f l).map fun bs => b :: bs

/-- Embedding of `qha.v2p.v2p`.  The row extension `np.hstack` prepends
`row[3]` and appends `row[-4]` (raising `IndexError` when there are fewer
than 4 volume columns, modelled as `none`); per temperature row the
boundary-window slice `extended_p[i, k-1:k+3]` yields four values only when
`1 ≤ k ≤ v - 1` (otherwise the tuple unpacking raises, modelled as `none`);
`desired_pressures[j]` and `rs[j]` are indexed at every `j < v_amount`
(`none` when out of range). -/
def v2p {t v : ℕ} (func_of_t_v p_of_t_v : Fin t → Fin v → ℝ)
    (desired_pressures : List ℝ) : Option (List (List ℝ)) :=
  if hv : v < 4 then none
  else
    let extended : (Fin v → ℝ) → ℕ → ℝ := fun row i =>
      if i = 0 then row ⟨3, by omega⟩
      else if h : i - 1 < v then row ⟨i - 1, h⟩
      else row ⟨v - 4, by omega⟩
    traverseOption (fun i =>
      let rs := vectorized_find_nearest (v + 2) (extended (p_of_t_v i))
        desired_pressures
      traverseOption (fun j =>
        (desired_pressures.get? j).bind fun dp =>
        (rs.get? j).bind fun k =>
        if 1 ≤ k ∧ k + 3 ≤ v + 2 then
          some (lagrange4 dp
            (extended (p_of_t_v i) (k - 1)) (extended (p_of_t_v i) k)
            (extended (p_of_t_v i) (k + 1)) (extended (p_of_t_v i) (k + 2))
            (extended (func_of_t_v i) (k - 1)) (extended (func_of_t_v i) k)
            (extended (func_of_t_v i) (k + 1)) (extended (func_of_t_v i) (k + 2)))
        else none) (List.range v)) (List.finRange t)

/-- The remapped field `F(T, P_desired)` as the specification describes it:
the same per-entry local interpolation, evaluated at every desired pressure
(so each row has as many entries as the desired-pressure axis). -/
def v2p_full {t v : ℕ} (func_of_t_v p_of_t_v : Fin t → Fin v → ℝ)
    (desired_pressures : List ℝ) : Option (List (List ℝ)) :=
  if hv : v < 4 then none
  else
    let extended : (Fin v → ℝ) → ℕ → ℝ := fun row i =>
      if i = 0 then row ⟨3, by omega⟩
      else if h : i - 1 < v then row ⟨i - 1, h⟩
      else row ⟨v - 4, by omega⟩
    traverseOption (fun i =>
      let rs := vectorized_find_nearest (v + 2) (extended (p_of_t_v i))
        desired_pressures
      traverseOption (fun j =>
        (desired_pressures.get? j).bind fun dp =>
        (rs.get? j).bind fun k =>
        if 1 ≤ k ∧ k + 3 ≤ v + 2 then
          some (lagrange4 dp
            (extended (p_of_t_v i) (k - 1)) (extended (p_of_t_v i) k)
            (extended (p_of_t_v i) (k + 1)) (extended (p_of_t_v i) (k + 2))
            (extended (func_of_t_v i) (k - 1)) (extended (func_of_t_v i) k)
            (extended (func_of_t_v i) (k + 1)) (extended (func_of_t_v i) (k + 2)))
        else none) (List.range desired_pressures.length)) (List.finRange t)

lemma traverseOption_length {α β : Type} (f : α → Option β) :
    ∀ (l : List α) (out : List β), traverseOption f l = some out →
      out.length = l.length := by
  intro l
  induction l with
  | nil =>
    intro out h
    rw [traverseOption] at h
    cases h
    rfl
  | cons a l ih =>
    intro out h
    rw [traverseOption] at h
    cases hfa : f a with
    | none =>
      rw [hfa] at h
      simp at h
    | some b =>
      rw [hfa] at h
      cases hl : traverseOption f l with
      | none =>
        rw [hl] at h
        simp at h
      | some bs =>
        rw [hl] at h
        simp only [Option.some_bind, Option.map_some] at h
        cases h
        simp [ih bs hl]

lemma traverseOption_mem {α β : Type} (f : α → Option β) :
    ∀ (l : List α) (out : List β), traverseOption f l = some out →
      ∀ r ∈ out, ∃ a ∈ l, f a = some r := by
  intro l
  induction l with
  | nil =>
    intro out h r hr
    rw [traverseOption] at h
    cases h
    simp at hr
  | cons a l ih =>
    intro out h r hr
    rw [traverseOption] at h
    cases hfa : f a with
    | none =>
      rw [hfa] at h
      simp at h
    | some b =>
      rw [hfa] at h
      cases hl : traverseOption f l with
      | none =>
        rw [hl] at h
        simp at h
      | some bs =>
        rw [hl] at h
        simp only [Option.some_bind, Option.map_some] at h
        cases h
        rcases List.mem_cons.mp hr with hb | hbs
        · exact ⟨a, List.mem_cons_self a l, by rw [hfa, hb]⟩
        · obtain ⟨a', ha', hfa'⟩ := ih bs hl r hbs
          exact ⟨a', List.mem_cons_of_mem a ha', hfa'⟩

lemma traverseOption_eq_none {α β : Type} (f : α → Option β) :
    ∀ (l : List α) (a : α), a ∈ l → f a = none → traverseOption f l = none := by
  intro l
  induction l with
  | nil =>
    intro a ha
    simp at ha
  | cons b l ih =>
    intro a ha hfa
    rw [traverseOption]
    rcases List.mem_cons.mp ha with hb | hl
    · rw [← hb, hfa]
      rfl
    · cases hfb : f b with
      | none => rfl
      | some c =>
        rw [ih a hl hfa]
        rfl

lemma traverseOption_some_of_mem {α β : Type} (f : α → Option β) (l : List α)
    (out : List β) (h : traverseOption f l = some out) (a : α) (ha : a ∈ l) :
    ∃ b, f a = some b := by
  cases hfa : f a with
  | none =>
    rw [traverseOption_eq_none f l a ha hfa] at h
    cases h
  | some b =>
    exact ⟨b, rfl⟩

/-- C10: the remapper `v2p` (i) always returns a matrix with one row per
temperature and with second dimension equal to the number of volume columns
of the input field — not the length of the desired-pressure axis; (ii) since
it reads `desired_pressures` (and the search-result array `rs`) at every
volume-column index, it is free of out-of-range access only when the
desired-pressure axis has at least as many entries as the volume axis; and
(iii) it computes the full remapped field `F(T, P_desired)` exactly when the
two lengths are equal. -/
theorem v2p_shape_and_bounds {t v : ℕ} (func_of_t_v p_of_t_v : Fin t → Fin v → ℝ)
    (desired_pressures : List ℝ) (ht : 1 ≤ t) :
    (∀ out, v2p func_of_t_v p_of_t_v desired_pressures = some out →
      out.length = t ∧ ∀ r ∈ out, r.length = v) ∧
    ((v2p func_of_t_v p_of_t_v desired_pressures).isSome = true →
      v ≤ desired_pressures.length) ∧
    (desired_pressures.length = v →
      v2p func_of_t_v p_of_t_v desired_pressures =
        v2p_full func_of_t_v p_of_t_v desired_pressures) := by
  refine ⟨?_, ?_, ?_⟩
  · intro out hout
    by_cases hv : v < 4
    · rw [v2p, dif_pos hv] at hout
      cases hout
    · rw [v2p, dif_neg hv] at hout
      constructor
      · rw [traverseOption_length _ _ _ hout]
        exact List.length_finRange t
      · intro r hr
        obtain ⟨i, -, hrow⟩ := traverseOption_mem _ _ _ hout r hr
        rw [traverseOption_length _ _ _ hrow]
        exact List.length_range v
  · intro hsome
    by_cases hv : v < 4
    · rw [v2p, dif_pos hv] at hsome
      cases hsome
    · by_contra hlen
      push_neg at hlen
      obtain ⟨out, hout⟩ := Option.isSome_iff_exists.mp hsome
      rw [v2p, dif_neg hv] at hout
      obtain ⟨row, hrow⟩ := traverseOption_some_of_mem _ _ _ hout
        (⟨0, ht⟩ : Fin t) (List.mem_finRange _)
      obtain ⟨entry, hentry⟩ := traverseOption_some_of_mem _ _ _ hrow
        desired_pressures.length (List.mem_range.mpr hlen)
      rw [List.get?_eq_none.mpr le_rfl] at hentry
      cases hentry
  · intro hlen
    rw [v2p, v2p_full, hlen]

/-- Witness for C10: the shape/bounds/refinement theorem instantiated at a
concrete 1-temperature, 4-volume field. -/
theorem v2p_shape_and_bounds_witness :
    (1 : ℕ) ≤ 1 ∧
    ((∀ out, v2p ((fun _ _ => (0:ℝ)) : Fin 1 → Fin 4 → ℝ)
        ((fun _ _ => (0:ℝ)) : Fin 1 → Fin 4 → ℝ) [1, 2, 3, 4] = some out →
        out.length = 1 ∧ ∀ r ∈ out, r.length = 4) ∧
      ((v2p ((fun _ _ => (0:ℝ)) : Fin 1 → Fin 4 → ℝ)
          ((fun _ _ => (0:ℝ)) : Fin 1 → Fin 4 → ℝ)
          [1, 2, 3, 4]).isSome = true →
        4 ≤ ([(1:ℝ), 2, 3, 4]).length) ∧
      (([(1:ℝ), 2, 3, 4]).length = 4 →
        v2p ((fun _ _ => (0:ℝ)) : Fin 1 → Fin 4 → ℝ)
          ((fun _ _ => (0:ℝ)) : Fin 1 → Fin 4 → ℝ) [1, 2, 3, 4] =
        v2p_full ((fun _ _ => (0:ℝ)) : Fin 1 → Fin 4 → ℝ)
          ((fun _ _ => (0:ℝ)) : Fin 1 → Fin 4 → ℝ) [1, 2, 3, 4])) :=
  ⟨le_refl 1,
    v2p_shape_and_bounds ((fun _ _ => (0:ℝ)) : Fin 1 → Fin 4 → ℝ)
      ((fun _ _ => (0:ℝ)) : Fin 1 → Fin 4 → ℝ) [1, 2, 3, 4] (le_refl 1)⟩

end QHA
